import Mathlib

/-!
Verification of the manifest-metadata extractor of `action-deploy-plugin`.
Every definition below is a shallow embedding of the corresponding
function of `src/.github/scripts/reassembly-cjs.js` (line numbers cited
per definition).  JavaScript strings are modelled as `String` values
scanned through their character lists, so that every function is
structurally recursive and evaluates inside the kernel; the scanning
loops of the source, which advance an index by jumps, carry an explicit
fuel argument, and a fuel budget derived from the input length is
proved sufficient, so the fuelled functions agree with the source's
loops.  Filesystem access (directory walks, `resolveTsModulePath`'s
extension probing, the module cache) is abstracted by finite lists of
parsed modules; everything else follows the JavaScript control flow
branch by branch.
-/

namespace UpdateManifest

/-! ## Character and string helpers -/

/-- Whitespace test backing the model of `String.prototype.trim`. -/
def isWsChar (c : Char) : Bool :=
  c = ' ' ∨ c = '\t' ∨ c = '\n' ∨ c = '\r' ∨ c = '\x0b' ∨ c = '\x0c'

/-- Trim leading and trailing whitespace from a character list. -/
def trimChars (cs : List Char) : List Char :=
  ((cs.dropWhile isWsChar).reverse.dropWhile isWsChar).reverse

/-- Computable model of `String.prototype.trim` (ASCII whitespace). -/
def strTrim (s : String) : String :=
  ⟨trimChars s.data⟩

/-- The backtick character (template-string quote). -/
def backtickChar : Char :=
  Char.ofNat 96

/-- ASCII lower-casing, the fragment of `toLowerCase` the script needs. -/
def lowerChar (c : Char) : Char :=
  if 'A' ≤ c ∧ c ≤ 'Z' then Char.ofNat (c.toNat + 32) else c

/-- Substring `s.slice(a, b)` over the character list. -/
def sliceStr (s : String) (a b : Nat) : String :=
  ⟨(s.data.drop a).take (b - a)⟩

/-- Association-list lookup, first match wins (JavaScript objects and
`Map`s hold each key once, so this is their property read). -/
def lookupStr {α : Type} : List (String × α) → String → Option α
  | [], _ => none
  | (k, v) :: rest, key => if k = key then some v else lookupStr rest key

/-- Model of `Map.set` / property assignment: replace the key in place when
present, else append; insertion order is preserved. -/
def setAssoc {α : Type} : List (String × α) → String → α → List (String × α)
  | [], k, v => [(k, v)]
  | (k', v') :: rest, k, v =>
    if k' = k then (k, v) :: rest else (k', v') :: setAssoc rest k v

/-- JavaScript `delete obj[k]`. -/
def removeField {α : Type} : List (String × α) → String → List (String × α)
  | [], _ => []
  | (k', v') :: rest, k =>
    if k' = k then rest else (k', v') :: removeField rest k

/-- Order-preserving deduplication keeping the first occurrence of each
string; the behaviour of spreading a JavaScript `Set`. -/
def dedupFirstAux (seen : List String) : List String → List String
  | [] => []
  | x :: rest =>
    if x ∈ seen then dedupFirstAux seen rest
    else x :: dedupFirstAux (x :: seen) rest

/-- Order-preserving deduplication keeping first occurrences. -/
def dedupFirst (l : List String) : List String :=
  dedupFirstAux [] l

/-- The regex `^[A-Za-z_$][\w$]*$` used throughout the script for
identifiers (`\w` is ASCII). -/
def isIdentifier (cs : List Char) : Bool :=
  match cs with
  | [] => false
  | c :: rest =>
    (c.isAlpha ∨ c = '_' ∨ c = '$') ∧
      rest.all (fun c2 => c2.isAlphanum ∨ c2 = '_' ∨ c2 = '$')

/-- All pairs of a path list and a name list; the finite key universe
of the cycle-detection argument. -/
def pairProd : List String → List String → List (String × String)
  | [], _ => []
  | a :: as, bs => bs.map (fun b => (a, b)) ++ pairProd as bs

/-! ## Lexical scanning (reassembly-cjs.js lines 603-679)

`skipStringLiteral` walks past a string literal honouring escapes and,
for template strings, balanced `interpolation` regions skipped through
a recursive `findMatchingDelimiter` call; `findMatchingDelimiter`
returns `-1` unless the character at the start index is the opener, and
otherwise scans for the matching closer, skipping string literals and
line and block comments.  The two loops are mutually recursive; the
embedding makes each loop iteration and each mutual call consume one
unit of fuel, and `scanFuel` below is proved large enough that the
fuel (`none`) outcome is unreachable, so the fuelled functions compute
exactly what the source's loops do. -/

/-- Index just past the first newline at or after `i` — the resume
point after a `//` comment (source line 652). -/
def lineCommentEnd (cs : List Char) (i : Nat) : Nat :=
  match (cs.drop i).findIdx? (fun c => c = '\n') with
  | some k => i + k
  | none => cs.length

/-- Offset of the first `*/` pair in a character list. -/
def findStarSlash : List Char → Option Nat
  | a :: b :: rest =>
    if a = '*' ∧ b = '/' then some 0
    else (findStarSlash (b :: rest)).map (fun n => n + 1)
  | _ => none

/-- Resume index after a `/*` comment opened at `i`
(source lines 656-662): two past the `*/` pair, or two past the scan
limit when the comment is unterminated. -/
def blockCommentResume (cs : List Char) (i : Nat) : Nat :=
  match findStarSlash (cs.drop (i + 2)) with
  | some k => i + 2 + k + 2
  | none => Nat.max (i + 2) (cs.length - 1) + 2

mutual
/-- Loop of `skipStringLiteral` (source lines 607-628) from index `i`,
`quoteChar` being the character at the literal's start index: escapes
skip two characters, a `$`-brace in a template string skips the
balanced interpolation via `findMatchingDelimiter`, the quote character
returns its index, and end of input returns `length - 1`.  `none`
stands for exhausted fuel only. -/
def skipStrLoop (cs : List Char) : Nat → Option Char → Nat → Option Int
  | 0, _, _ => none
  | fuel + 1, quoteChar, i =>
    match cs.get? i with
    | none => some ((cs.length : Int) - 1)
    | some c =>
      if c = '\\' then skipStrLoop cs fuel quoteChar (i + 2)
      else if quoteChar = some backtickChar ∧ c = '$' ∧ cs.get? (i + 1) = some '{' then
        match fmdLoop cs '{' '}' fuel (i + 1) 0 with
        | none => none
        | some e =>
          if e = -1 then some ((cs.length : Int) - 1)
          else skipStrLoop cs fuel quoteChar (e + 1).toNat
      else if some c = quoteChar then some (i : Int)
      else skipStrLoop cs fuel quoteChar (i + 1)

/-- Loop of `findMatchingDelimiter` (source lines 641-676): string
literals are skipped via `skipStringLiteral`, `//` comments to the end
of the line, `/*` comments past their terminator; the opener raises the
depth, the closer lowers it and the index is returned when the depth
reaches zero; end of input yields `-1`.  `none` stands for exhausted
fuel only. -/
def fmdLoop (cs : List Char) (openC closeC : Char) : Nat → Nat → Int → Option Int
  | 0, _, _ => none
  | fuel + 1, i, depth =>
    match cs.get? i with
    | none => some (-1)
    | some c =>
      if c = '\'' ∨ c = '"' ∨ c = backtickChar then
        match skipStrLoop cs fuel (cs.get? i) (i + 1) with
        | none => none
        | some r => fmdLoop cs openC closeC fuel (r + 1).toNat depth
      else if c = '/' ∧ cs.get? (i + 1) = some '/' then
        fmdLoop cs openC closeC fuel (lineCommentEnd cs i + 1) depth
      else if c = '/' ∧ cs.get? (i + 1) = some '*' then
        fmdLoop cs openC closeC fuel (blockCommentResume cs i) depth
      else if c = openC then fmdLoop cs openC closeC fuel (i + 1) (depth + 1)
      else if c = closeC then
        if depth - 1 = 0 then some (i : Int)
        else fmdLoop cs openC closeC fuel (i + 1) (depth - 1)
      else fmdLoop cs openC closeC fuel (i + 1) depth
end

/-- Fuel sufficient for every scan of a character list: two units per
remaining character plus slack. -/
def scanFuel (cs : List Char) : Nat :=
  2 * cs.length + 2

/-- Model of `skipStringLiteral(input, startIndex)` (source lines 603-631):
reads the quote at the start index and walks past the literal. -/
def skipStringLiteralFuel (cs : List Char) (fuel : Nat) (startIndex : Nat) : Option Int :=
  skipStrLoop cs fuel (cs.get? startIndex) (startIndex + 1)

/-- Model of `findMatchingDelimiter(input, startIndex, openChar, closeChar)`
(source lines 636-679) with explicit fuel: `-1` immediately unless the
character at the start index is the opener, else the delimiter scan. -/
def findMatchingDelimiterFuel (cs : List Char) (fuel : Nat) (startIndex : Nat)
    (openC closeC : Char) : Option Int :=
  if cs.get? startIndex = some openC then fmdLoop cs openC closeC fuel startIndex 0
  else some (-1)

/-- Model of `findMatchingDelimiter` at the proved-sufficient fuel; the `-1`
default branch is unreachable (`findMatchingDelimiter_total`). -/
def findMatchingDelimiter (input : String) (startIndex : Nat) (openC closeC : Char) : Int :=
  match findMatchingDelimiterFuel input.data (scanFuel input.data) startIndex openC closeC with
  | some r => r
  | none => -1

/-! ## splitTopLevel and findTopLevelChar (source lines 684-788) -/

/-- The four depth counters of `splitTopLevel` after one character
(source lines 717-724): parens, braces, brackets, and — only when
tracking is enabled — angles, the angle depth floored at zero. -/
def splitDepthStep (trackAngles : Bool) (c : Char) (pd bd kd ad : Int) :
    Int × Int × Int × Int :=
  if c = '(' then (pd + 1, bd, kd, ad)
  else if c = ')' then (pd - 1, bd, kd, ad)
  else if c = '{' then (pd, bd + 1, kd, ad)
  else if c = '}' then (pd, bd - 1, kd, ad)
  else if c = '[' then (pd, bd, kd + 1, ad)
  else if c = ']' then (pd, bd, kd - 1, ad)
  else if trackAngles ∧ c = '<' then (pd, bd, kd, ad + 1)
  else if trackAngles ∧ c = '>' ∧ 0 < ad then (pd, bd, kd, ad - 1)
  else (pd, bd, kd, ad)

/-- Loop of `splitTopLevel` (source lines 694-736): string literals and
comments are skipped, the depth counters updated, and the input is cut
at the delimiter when all four counters are zero; the pending part
starts at `start`.  On exhausted fuel the remaining tail is emitted
(unreachable at the wrapper's fuel). -/
def splitLoop (cs : List Char) (delim : Char) (trackAngles : Bool) :
    Nat → Nat → Nat → Int → Int → Int → Int → List (List Char)
  | 0, _, start, _, _, _, _ => [(cs.drop start).take (cs.length - start)]
  | fuel + 1, i, start, pd, bd, kd, ad =>
    match cs.get? i with
    | none => [(cs.drop start).take (cs.length - start)]
    | some c =>
      if c = '\'' ∨ c = '"' ∨ c = backtickChar then
        match skipStrLoop cs fuel (cs.get? i) (i + 1) with
        | none => [(cs.drop start).take (cs.length - start)]
        | some r => splitLoop cs delim trackAngles fuel (r + 1).toNat start pd bd kd ad
      else if c = '/' ∧ cs.get? (i + 1) = some '/' then
        splitLoop cs delim trackAngles fuel (lineCommentEnd cs i + 1) start pd bd kd ad
      else if c = '/' ∧ cs.get? (i + 1) = some '*' then
        splitLoop cs delim trackAngles fuel (blockCommentResume cs i) start pd bd kd ad
      else
        match splitDepthStep trackAngles c pd bd kd ad with
        | (pd', bd', kd', ad') =>
          if c = delim ∧ pd' = 0 ∧ bd' = 0 ∧ kd' = 0 ∧ ad' = 0 then
            (cs.drop start).take (i - start) ::
              splitLoop cs delim trackAngles fuel (i + 1) (i + 1) pd' bd' kd' ad'
          else splitLoop cs delim trackAngles fuel (i + 1) start pd' bd' kd' ad'

/-- Model of `splitTopLevel(input, delimiter, trackAngles)` (source lines
684-740): split at the delimiter at zero nesting depth only. -/
def splitTopLevel (input : String) (delim : Char) (trackAngles : Bool) : List String :=
  (splitLoop input.data delim trackAngles (scanFuel input.data) 0 0 0 0 0 0).map
    (fun cs => (⟨cs⟩ : String))

/-- Loop of `findTopLevelChar` (source lines 747-785): three depth
counters, string and comment skipping, first index of the target at
depth zero, else `-1`. -/
def ftcLoop (cs : List Char) (target : Char) :
    Nat → Nat → Int → Int → Int → Option Int
  | 0, _, _, _, _ => none
  | fuel + 1, i, pd, bd, kd =>
    match cs.get? i with
    | none => some (-1)
    | some c =>
      if c = '\'' ∨ c = '"' ∨ c = backtickChar then
        match skipStrLoop cs fuel (cs.get? i) (i + 1) with
        | none => none
        | some r => ftcLoop cs target fuel (r + 1).toNat pd bd kd
      else if c = '/' ∧ cs.get? (i + 1) = some '/' then
        ftcLoop cs target fuel (lineCommentEnd cs i + 1) pd bd kd
      else if c = '/' ∧ cs.get? (i + 1) = some '*' then
        ftcLoop cs target fuel (blockCommentResume cs i) pd bd kd
      else
        let pd' := if c = '(' then pd + 1 else if c = ')' then pd - 1 else pd
        let bd' := if c = '{' then bd + 1 else if c = '}' then bd - 1 else bd
        let kd' := if c = '[' then kd + 1 else if c = ']' then kd - 1 else kd
        if c = target ∧ pd' = 0 ∧ bd' = 0 ∧ kd' = 0 then some (i : Int)
        else ftcLoop cs target fuel (i + 1) pd' bd' kd'

/-- Model of `findTopLevelChar(input, targetChar)` (source lines 742-788). -/
def findTopLevelChar (input : String) (target : Char) : Int :=
  match ftcLoop input.data target (scanFuel input.data) 0 0 0 0 with
  | some r => r
  | none => -1

/-! ## stripOuterParens (source lines 790-798) -/

/-- One pass of the `stripOuterParens` loop, iterated at most once per
two characters: while the trimmed string starts with `(` and ends with
`)` and the opener's match is the last character, strip the pair and
re-trim. -/
def stripOuterParensAux : Nat → String → String
  | 0, s => s
  | n + 1, s =>
    if s.data.head? = some '(' ∧ s.data.getLast? = some ')' then
      if findMatchingDelimiter s 0 '(' ')' = (s.data.length : Int) - 1 then
        stripOuterParensAux n (strTrim (sliceStr s 1 (s.data.length - 1)))
      else s
    else s

/-- Model of `stripOuterParens(input)` (source lines 790-798). -/
def stripOuterParens (s : String) : String :=
  stripOuterParensAux s.data.length (strTrim s)

/-! ## extractStringLiterals (source lines 1317-1330)

The literal regex matches a double or single quote, then
escape pairs (backslash plus any non-line-terminator) or plain
characters (neither the quote, a backslash, nor CR/LF), then the same
quote.  No two alternatives of the content group overlap, so the
regex engine's backtracking search is the deterministic scan below; a
failed match attempt resumes one character after its start, a
successful one resumes after the closing quote. -/

/-- JavaScript line terminators (the characters `.` does not match). -/
def isLineTerm (c : Char) : Bool :=
  c = '\n' ∨ c = '\r' ∨ c = Char.ofNat 0x2028 ∨ c = Char.ofNat 0x2029

/-- Scan the body of a string literal opened with `quote`: returns the
raw body (escape pairs kept verbatim) and the input after the closing
quote, or `none` when the regex cannot match here. -/
def scanLiteralBody (quote : Char) : List Char → Option (List Char × List Char)
  | [] => none
  | c :: rest =>
    if c = quote then some ([], rest)
    else if c = '\\' then
      match rest with
      | [] => none
      | c2 :: rest2 =>
        if isLineTerm c2 then none
        else (scanLiteralBody quote rest2).map (fun p => ('\\' :: c2 :: p.1, p.2))
    else if isLineTerm c then none
    else (scanLiteralBody quote rest).map (fun p => (c :: p.1, p.2))

/-- One global-replace pass turning each `\\` + `target` pair into
`target`, scanning left to right without overlap (the two `.replace`
calls of source lines 1324-1326). -/
def replaceEscPair (target : Char) : List Char → List Char
  | [] => []
  | '\\' :: c :: rest =>
    if c = target then c :: replaceEscPair target rest
    else '\\' :: replaceEscPair target (c :: rest)
  | c :: rest => c :: replaceEscPair target rest

/-- Normalization of a raw literal body: `\<quote>` becomes the quote,
then `\\` becomes `\`; all other escape pairs stay verbatim. -/
def normalizeLiteral (quote : Char) (raw : List Char) : String :=
  ⟨replaceEscPair '\\' (replaceEscPair quote raw)⟩

/-- The regex-exec loop of `extractStringLiterals`: at each quote
character attempt a literal match; on success emit the normalized body
and resume after the closing quote, on failure resume one character
later.  One fuel unit per emitted literal or skipped character;
`input.length + 1` fuel never runs out. -/
def extractLiteralsLoop : Nat → List Char → List String
  | 0, _ => []
  | _ + 1, [] => []
  | fuel + 1, c :: rest =>
    if c = '"' ∨ c = '\'' then
      match scanLiteralBody c rest with
      | some (raw, after) => normalizeLiteral c raw :: extractLiteralsLoop fuel after
      | none => extractLiteralsLoop fuel rest
    else extractLiteralsLoop fuel rest

/-- Model of `extractStringLiterals(input)` (source lines 1317-1330): all
matched literals, normalized, de-duplicated keeping first occurrences
(the final `[...new Set(literals)]`). -/
def extractStringLiterals (input : String) : List String :=
  dedupFirst (extractLiteralsLoop (input.data.length + 1) input.data)

/-! ## Object-literal parsing (source lines 817-878) -/

/-- Model of `normalizeObjectKey(rawKey)` (source lines 817-827): the trimmed
key when it is an identifier; else the inner text of
the quoted form — one leading and one trailing quote of either
kind, a non-empty interior containing no quote of either kind; else
`null`. -/
def normalizeObjectKey (rawKey : String) : Option String :=
  let key := trimChars rawKey.data
  if isIdentifier key then some ⟨key⟩
  else
    match key with
    | [] => none
    | q1 :: rest =>
      if (q1 = '"' ∨ q1 = '\'') then
        match rest.reverse with
        | [] => none
        | q2 :: innerRev =>
          let inner := innerRev.reverse
          if (q2 = '"' ∨ q2 = '\'') ∧ ¬inner.isEmpty ∧
              inner.all (fun c => ¬(c = '"' ∨ c = '\'')) then
            some ⟨inner⟩
          else none
      else none

/-- Model of `extractObjectLiteral(expression)` (source lines 829-838): strip
outer parens, find the first `{` (plain `indexOf`), take the text up
to its matching `}`. -/
def extractObjectLiteral (expression : String) : Option String :=
  let trimmed := stripOuterParens expression
  match trimmed.data.findIdx? (fun c => c = '{') with
  | none => none
  | some objectStart =>
    let objectEnd := findMatchingDelimiter trimmed objectStart '{' '}'
    if objectEnd = -1 then none
    else some (sliceStr trimmed objectStart (objectEnd.toNat + 1))

/-- Result of `parseObjectLiteral`: the raw literal text, the property
map in `Map` insertion order, and the spread expressions in order. -/
structure ParsedObjectLiteral where
  raw : String
  properties : List (String × String)
  spreads : List String
  deriving Repr, DecidableEq

/-- Does the entry start with `...` (a spread)? -/
def startsWithSpread : List Char → Bool
  | a :: b :: c :: _ => a = '.' ∧ b = '.' ∧ c = '.'
  | _ => false

/-- One entry of the `parseObjectLiteral` loop (source lines 852-871)
folded over `(properties, spreads)`: spreads are pushed; entries with
no top-level colon contribute a shorthand property only when they are
identifiers; otherwise the key before the colon is normalized (entries
with unusable keys are skipped) and `Map.set` upserts the trimmed
value. -/
def parseObjectEntry (acc : List (String × String) × List String) (entry : String) :
    List (String × String) × List String :=
  if startsWithSpread entry.data then
    (acc.1, acc.2 ++ [strTrim ⟨entry.data.drop 3⟩])
  else
    let colonIndex := findTopLevelChar entry ':'
    if colonIndex = -1 then
      if isIdentifier entry.data then (setAssoc acc.1 entry entry, acc.2) else acc
    else
      match normalizeObjectKey (sliceStr entry 0 colonIndex.toNat) with
      | none => acc
      | some key =>
        (setAssoc acc.1 key
          (strTrim (sliceStr entry (colonIndex.toNat + 1) entry.data.length)), acc.2)

/-- Model of `parseObjectLiteral(expression)` (source lines 840-878). -/
def parseObjectLiteral (expression : String) : Option ParsedObjectLiteral :=
  match extractObjectLiteral expression with
  | none => none
  | some objectLiteral =>
    let inner := strTrim (sliceStr objectLiteral 1 (objectLiteral.data.length - 1))
    let entries :=
      ((splitTopLevel inner ',' false).map strTrim).filter (fun e => ¬e.data.isEmpty)
    let built := entries.foldl parseObjectEntry ([], [])
    some ⟨objectLiteral, built.1, built.2⟩

/-! ## Entrypoint callsite selection (source lines 1451-1536) -/

/-- A callsite collected by `findCallsitesInSource`: the scanned
function name, file, generic arguments (trimmed, blanks dropped — an
empty generic list is kept as a callsite), call arguments, and the
match offset. -/
structure Callsite where
  functionName : String
  filePath : String
  genericArgs : List String
  args : List String
  index : Nat
  deriving Repr, DecidableEq

/-- Errors of the resolution pipeline. -/
inductive ResolveError where
  | ambiguousEntrypoint (functionName : String)
  | noEntrypoint
  | cycleDetected (aliasName : String)
  | moduleNotFound (whichPath : String)
  | unresolvedAlias (aliasName : String)
  | unsupportedExpression (typeExpression : String)
  | optionsParseFailed
  | missingSettingsSchema
  | outOfFuel
  deriving Repr, DecidableEq

/-- Selection policy of `findEntrypointCallsite` (source lines
1509-1535) over the collected `createPlugin` and `createActionsPlugin`
callsite lists: more than one `createPlugin` callsite is ambiguous,
exactly one wins; otherwise the same rule applies to
`createActionsPlugin`; otherwise there is no entrypoint.  The
filesystem walk producing the two lists is abstracted: the policy is
stated over arbitrary lists. -/
def findEntrypointCallsite (pluginCallsites actionCallsites : List Callsite) :
    Except ResolveError Callsite :=
  if 1 < pluginCallsites.length then .error (.ambiguousEntrypoint "createPlugin")
  else
    match pluginCallsites.head? with
    | some c => .ok c
    | none =>
      if 1 < actionCallsites.length then
        .error (.ambiguousEntrypoint "createActionsPlugin")
      else
        match actionCallsites.head? with
        | some c => .ok c
        | none => .error .noEntrypoint

/-! ## Excluded supported events (source lines 135-144 and 1721-1735) -/

/-- Split a character list at every occurrence of a character
(JavaScript `String.prototype.split`, which never drops parts). -/
def splitOnCharAux (delim : Char) : List Char → List Char → List String
  | [], acc => [⟨acc.reverse⟩]
  | c :: rest, acc =>
    if c = delim then ⟨acc.reverse⟩ :: splitOnCharAux delim rest []
    else splitOnCharAux delim rest (c :: acc)

/-- Model of `s.split(delim)` for a single-character delimiter. -/
def splitOnChar (s : String) (delim : Char) : List String :=
  splitOnCharAux delim s.data []

/-- Model of `parseExcludedSupportedEvents(value)` for string input (source
lines 135-144): blank input gives `[]`, else split on commas, trim,
drop empties, and de-duplicate keeping first occurrences.  Non-string
inputs also give `[]` (first guard); the model takes the string case.
-/
def parseExcludedSupportedEvents (value : String) : List String :=
  if (trimChars value.data).isEmpty then []
  else dedupFirst (((splitOnChar value ',').map strTrim).filter (fun s => ¬s.data.isEmpty))

/-- The exclusion step of `extractManifestMetadataFromEntrypoint`
(source lines 1721-1735): exclusions naming no resolved event are
fatal and reported; otherwise the excluded events are removed from the
resolved list, preserving order. -/
def applyExcludedSupportedEvents (supportedEvents : List String)
    (excludeInput : String) : Except (List String) (List String) :=
  let excluded := parseExcludedSupportedEvents excludeInput
  let unknown := excluded.filter (fun e => ¬supportedEvents.contains e)
  if ¬unknown.isEmpty then .error unknown
  else .ok (supportedEvents.filter (fun e => ¬excluded.contains e))

/-! ## Type-alias resolution (source lines 1249-1315, 1332-1365)

A parsed source file is its type aliases, named imports, named
re-exports, and star re-export specifiers — the fields of
`readParsedSource` the resolver reads (default and namespace imports
are not consulted by it).  `resolveTsModulePath`'s filesystem probing
is abstracted: a specifier resolves exactly when it names a module of
the model, to that module's path.  The `seen` set is threaded through
the computation exactly as the source shares one mutable `Set`: in
particular a star re-export attempt that fails leaves its additions in
place for the following attempts (source lines 1301-1310 catch and
continue without any rollback). -/

/-- A named import or re-export binding (`{ importedName, source }`). -/
structure ImportBinding where
  importedName : String
  source : String
  deriving Repr, DecidableEq

/-- A parsed source module, keyed by its path. -/
structure SourceModule where
  path : String
  typeAliases : List (String × String)
  namedImports : List (String × ImportBinding)
  namedReexports : List (String × ImportBinding)
  starReexports : List String
  deriving Repr

/-- Look up a module by path (`readParsedSource` on the model). -/
def findModule (modules : List SourceModule) (p : String) : Option SourceModule :=
  modules.find? (fun m => m.path = p)

/-- Paths of all modules of the model. -/
def modulePaths (modules : List SourceModule) : List String :=
  modules.map (fun m => m.path)

/-- Abstraction of `resolveTsModulePath`: the specifier resolves to
itself exactly when a module with that path exists. -/
def resolveModulePath (modules : List SourceModule) (specifier : String) : Option String :=
  (findModule modules specifier).map (fun m => m.path)

/-- A visited-set key: `filePath :: aliasName` (source line 1250). -/
def ResolutionKey : Type := String × String

instance : DecidableEq ResolutionKey := instDecidableEqProd
instance : Membership ResolutionKey (List ResolutionKey) := List.instMembership

mutual
/-- Model of `resolveTypeAlias(aliasName, filePath, …, seen)` (source lines
1249-1315), returning the final visited set together with the result
(`(expression, filePath)` of the found local alias).  Cycle check and
insertion first; then the local alias, the named import, the named
re-export, and finally the star re-exports.  A failed module
resolution for a named binding is fatal.  One fuel unit per call;
`error .outOfFuel` marks exhaustion and is proved unreachable at the
budget below. -/
def resolveTypeAlias (modules : List SourceModule) :
    Nat → String → String → List ResolutionKey →
      List ResolutionKey × Except ResolveError (String × String)
  | fuel, aliasName, filePath, seen =>
    if (filePath, aliasName) ∈ seen then (seen, .error (.cycleDetected aliasName))
    else
      let seen1 := (filePath, aliasName) :: seen
      match fuel with
      | 0 => (seen1, .error .outOfFuel)
      | fuel + 1 =>
        match findModule modules filePath with
        | none => (seen1, .error (.moduleNotFound filePath))
        | some m =>
          match lookupStr m.typeAliases aliasName with
          | some expression => (seen1, .ok (expression, filePath))
          | none =>
            match lookupStr m.namedImports aliasName with
            | some imp =>
              match resolveModulePath modules imp.source with
              | none => (seen1, .error (.moduleNotFound imp.source))
              | some p => resolveTypeAlias modules fuel imp.importedName p seen1
            | none =>
              match lookupStr m.namedReexports aliasName with
              | some rex =>
                match resolveModulePath modules rex.source with
                | none => (seen1, .error (.moduleNotFound rex.source))
                | some p => resolveTypeAlias modules fuel rex.importedName p seen1
              | none => resolveStarReexports modules fuel aliasName m.starReexports seen1

/-- The star re-export loop (source lines 1301-1314): unresolvable
specifiers are skipped; a successful recursive resolution returns; a
failed one leaves the grown visited set in place and the loop
continues; an exhausted loop is the unresolved-alias error.  Fuel
exhaustion propagates (never caught), so at sufficient fuel the
`catch` clause swallows exactly the source's errors. -/
def resolveStarReexports (modules : List SourceModule) :
    Nat → String → List String → List ResolutionKey →
      List ResolutionKey × Except ResolveError (String × String)
  | 0, _, _, seen => (seen, .error .outOfFuel)
  | _ + 1, aliasName, [], seen => (seen, .error (.unresolvedAlias aliasName))
  | fuel + 1, aliasName, spec :: rest, seen =>
    match resolveModulePath modules spec with
    | none => resolveStarReexports modules fuel aliasName rest seen
    | some p =>
      match resolveTypeAlias modules fuel aliasName p seen with
      | (seen2, .ok r) => (seen2, .ok r)
      | (seen2, .error .outOfFuel) => (seen2, .error .outOfFuel)
      | (seen2, .error _) => resolveStarReexports modules fuel aliasName rest seen2
end

/-- Model of `resolveSupportedEventsFromTypeExpression` (source lines
1332-1365): strip outer parens; a non-empty literal extraction is the
answer; an identifier is resolved as a type alias and its body
re-examined with the same visited set; anything else is fatal, the
error citing the original expression. -/
def resolveSupportedEventsFromTypeExpression (modules : List SourceModule) :
    Nat → String → String → List ResolutionKey →
      List ResolutionKey × Except ResolveError (List String)
  | 0, _, _, seen => (seen, .error .outOfFuel)
  | fuel + 1, typeExpression, filePath, seen =>
    let normalized := stripOuterParens typeExpression
    let literals := extractStringLiterals normalized
    if ¬literals.isEmpty then (seen, .ok literals)
    else if isIdentifier normalized.data then
      match resolveTypeAlias modules fuel normalized filePath seen with
      | (seen2, .error e) => (seen2, .error e)
      | (seen2, .ok (expression, aliasFile)) =>
        resolveSupportedEventsFromTypeExpression modules fuel expression aliasFile seen2
    else (seen, .error (.unsupportedExpression typeExpression))

/-! ### Fuel budget

The visited set grows inside a finite key universe: pairs of a module
path (or the initial file) and a name reachable as an alias-resolution
argument (the initial name, imported and re-exported names, and
stripped alias bodies re-examined by the events resolver).  Each
`resolveTypeAlias` call either stops or strictly grows the visited
set, so `(totalStars + 2) * |keyUniverse|` fuel is enough. -/

/-- Names an alias-resolution argument can take, beyond the extras:
alias keys, imported and re-exported names, and stripped alias bodies.
-/
def moduleNames (m : SourceModule) : List String :=
  m.typeAliases.map (fun a => a.1) ++
    m.namedImports.map (fun p => p.2.importedName) ++
    m.namedReexports.map (fun p => p.2.importedName) ++
    m.typeAliases.map (fun a => stripOuterParens a.2)

/-- The name universe: the extra names and every module's names. -/
def nameUniverse (modules : List SourceModule) (extraNames : List String) : List String :=
  extraNames ++ modules.flatMap moduleNames

/-- The key universe: extra paths and module paths crossed with the
name universe. -/
def keyUniverse (modules : List SourceModule) (extraPaths extraNames : List String) :
    List ResolutionKey :=
  pairProd (extraPaths ++ modulePaths modules) (nameUniverse modules extraNames)

/-- Total number of star re-export specifiers across all modules. -/
def totalStars (modules : List SourceModule) : Nat :=
  (modules.map (fun m => m.starReexports.length)).sum

/-- Fuel left when `s` keys have been visited. -/
def starBudget (modules : List SourceModule) (extraPaths extraNames : List String)
    (s : Nat) : Nat :=
  (totalStars modules + 2) * ((keyUniverse modules extraPaths extraNames).length - s)

/-- A sufficient fuel budget for one resolution run. -/
def resolutionFuel (modules : List SourceModule) (extraPaths extraNames : List String) : Nat :=
  starBudget modules extraPaths extraNames 0 + 1

/-- Model of `resolveTypeAlias` from an empty visited set at the proved
budget. -/
def resolveTypeAliasRun (modules : List SourceModule) (aliasName filePath : String) :
    List ResolutionKey × Except ResolveError (String × String) :=
  resolveTypeAlias modules (resolutionFuel modules [filePath] [aliasName])
    aliasName filePath []

/-- The events resolver from an empty visited set at the proved
budget. -/
def resolveSupportedEventsRun (modules : List SourceModule)
    (typeExpression filePath : String) : Except ResolveError (List String) :=
  (resolveSupportedEventsFromTypeExpression modules
    (starBudget modules [filePath] [stripOuterParens typeExpression] 0 + 2)
    typeExpression filePath []).2

/-- Invariant of the visited set: its keys lie in the universe and are
pairwise distinct. -/
def seenInv (modules : List SourceModule) (extraPaths extraNames : List String)
    (seen : List ResolutionKey) : Prop :=
  (∀ k ∈ seen, k ∈ keyUniverse modules extraPaths extraNames) ∧ seen.Nodup

/-- Postcondition of one `resolveTypeAlias` or star-loop run: the
visited set keeps the invariant and never shrinks, fuel never runs
out, and a success carries a stripped body in the name universe, a
file among the module paths, and a strictly grown visited set. -/
def rtaPost (modules : List SourceModule) (extraPaths extraNames : List String)
    (seen : List ResolutionKey)
    (r : List ResolutionKey × Except ResolveError (String × String)) : Prop :=
  seenInv modules extraPaths extraNames r.1 ∧ seen.length ≤ r.1.length ∧
    match r.2 with
    | .error e => e ≠ .outOfFuel
    | .ok (expression, aliasFile) =>
      stripOuterParens expression ∈ nameUniverse modules extraNames ∧
        aliasFile ∈ modulePaths modules ∧ seen.length < r.1.length

/-! ## JSON values and the schema reviver (source lines 259-275) -/

/-- JSON values (numbers as integers; the schemas under test use no
fractional numbers). -/
inductive Json where
  | null
  | bool (b : Bool)
  | num (n : Int)
  | str (s : String)
  | arr (elems : List Json)
  | obj (fields : List (String × Json))
  deriving Repr

/-- Property read `j[k]` via optional chaining: `none` when `j` is not
an object or lacks the key. -/
def lookupField (j : Json) (k : String) : Option Json :=
  match j with
  | .obj fields => lookupStr fields k
  | _ => none

/-- Model of `j[k]` when it is a string. -/
def getStrField (j : Json) (k : String) : Option String :=
  match lookupField j k with
  | some (.str s) => some s
  | _ => none

/-- JavaScript truthiness of a JSON value. -/
def jsonTruthy : Json → Bool
  | .null => false
  | .bool b => b
  | .num n => ¬(n = 0)
  | .str s => ¬s.data.isEmpty
  | .arr _ => true
  | .obj _ => true

/-- Model of `SameValueZero` on JSON.parse output, the equality a `Set` uses:
primitives by value; objects and arrays are freshly allocated by the
parser, so no two of them are the same reference. -/
def jsonSameValue : Json → Json → Bool
  | .null, .null => true
  | .bool a, .bool b => a = b
  | .num a, .num b => a = b
  | .str a, .str b => a = b
  | _, _ => false

/-- Spreading `new Set(xs)` back to an array: first occurrences in
order, under `SameValueZero`. -/
def dedupJsonFirstAux (seen : List Json) : List Json → List Json
  | [] => []
  | x :: rest =>
    if seen.any (fun s => jsonSameValue s x) then dedupJsonFirstAux seen rest
    else x :: dedupJsonFirstAux (x :: seen) rest

/-- Model of `[...new Set(xs)]` for JSON element lists. -/
def dedupJsonFirst (xs : List Json) : List Json :=
  dedupJsonFirstAux [] xs

/-- Does `properties[name]` declare a default, i.e. is it an object
with a `default` key (source line 264)?  A `null` property value makes
the source's `"default" in propValue` throw; the model is scoped to
schemas whose property values are objects or other non-null JSON. -/
def propHasDefault (props : List (String × Json)) (name : String) : Bool :=
  match lookupStr props name with
  | some (.obj fields) => (lookupStr fields "default").isSome
  | _ => false

/-- Model of `customReviver(key, value)` (source lines 259-275) on one node:
when the node has both a `properties` object and a `required` array,
the required list is de-duplicated through a `Set` (first occurrences
kept), names whose property declares a `default` are deleted from the
set, the survivors are written back in order, and an emptied list
removes the `required` key.  The model is scoped to nodes whose
`properties` value is an object and whose `required` value is an
array — the shapes `JSON.parse` produces for the schemas at hand
(other `required` shapes make `new Set(...)` throw or iterate
characters). -/
def customReviver (j : Json) : Json :=
  match j with
  | .obj fields =>
    match lookupStr fields "properties", lookupStr fields "required" with
    | some (.obj props), some (.arr req) =>
      let kept := (dedupJsonFirst req).filter
        (fun r => match r with
          | .str name => ¬propHasDefault props name
          | _ => true)
      if kept.isEmpty then .obj (removeField fields "required")
      else .obj (setAssoc fields "required" (.arr kept))
    | _, _ => j
  | _ => j

/-- Model of `JSON.parse(JSON.stringify(schema), customReviver)` (source lines
590-593): stringify-then-parse reproduces the JSON value, and the
reviver runs bottom-up on every node. -/
def reviveSchema : Json → Json
  | .obj fields =>
    customReviver (.obj (fields.attach.map (fun x => (x.1.1, reviveSchema x.1.2))))
  | .arr elems => customReviver (.arr (elems.attach.map (fun x => reviveSchema x.1)))
  | j => customReviver j
termination_by j => sizeOf j
decreasing_by
  · have hm := List.sizeOf_lt_of_mem x.2
    have hp : sizeOf x.1.2 < sizeOf x.1 := by
      cases x.1 with
      | mk a b => simp
    simp only [Json.obj.sizeOf_spec]
    omega
  · have hm := List.sizeOf_lt_of_mem x.2
    simp only [Json.arr.sizeOf_spec]
    omega

/-! ## Command and listener validation (source lines 281-304, 432-442) -/

/-- Model of `typeof x === "object" && x !== null` for JSON values. -/
def isObjectLikeJson : Json → Bool
  | .obj _ => true
  | .arr _ => true
  | _ => false

/-- Per-entry loop of `validateCommands` (source lines 289-302): each
command must be an object carrying non-empty `description` and
`ubiquity:example` strings (empty strings are falsy and rejected by
the `!cmd.description`-style guards). -/
def firstBadCommand : List (String × Json) → Option String
  | [] => none
  | (key, cmd) :: rest =>
    if ¬isObjectLikeJson cmd then some ("Command \"" ++ key ++ "\" must be an object")
    else
      match getStrField cmd "description" with
      | some d =>
        if d.data.isEmpty then
          some ("Command \"" ++ key ++ "\" is missing a \"description\" string")
        else
          match getStrField cmd "ubiquity:example" with
          | some e =>
            if e.data.isEmpty then
              some ("Command \"" ++ key ++ "\" is missing a \"ubiquity:example\" string")
            else firstBadCommand rest
          | none =>
            some ("Command \"" ++ key ++ "\" is missing a \"ubiquity:example\" string")
      | none => some ("Command \"" ++ key ++ "\" is missing a \"description\" string")

/-- Model of `validateCommands(commands)` (source lines 281-304): `null` when
valid, else the first error. -/
def validateCommands (commands : Json) : Option String :=
  match commands with
  | .obj fields => firstBadCommand fields
  | _ => some "commands must be a plain object (Record<string, CommandSchema>)"

/-- Stringification of a listener inside the warning template; exact
for the string listeners the message is about. -/
def listenerText : Json → String
  | .str s => s
  | .null => "null"
  | .bool b => if b then "true" else "false"
  | .num n => toString n
  | .arr _ => ""
  | .obj _ => "[object Object]"

/-- The per-listener rejection message (source line 438). -/
def badListenerMessage (j : Json) : String :=
  "Listener \"" ++ listenerText j ++
    "\" does not look like a valid webhook event (expected format: \"event.action\")"

/-- Per-entry loop of `validateListeners` (source lines 436-440): each
listener must be a string containing a `.`; nothing else is required —
in particular an empty list passes. -/
def firstBadListener : List Json → Option String
  | [] => none
  | l :: rest =>
    match l with
    | .str s =>
      if s.data.contains '.' then firstBadListener rest else some (badListenerMessage (.str s))
    | j => some (badListenerMessage j)

/-- Model of `validateListeners(listeners)` (source lines 432-442). -/
def validateListeners (listeners : Json) : Option String :=
  match listeners with
  | .arr l => firstBadListener l
  | _ => some "listeners must be an array of webhook event strings"

/-! ## TypeBox command-schema conversion (source lines 310-426) -/

/-- The `anyOf` array if present, else the `oneOf` array (source lines
319-323); a non-array `anyOf` falls through to `oneOf`. -/
def unionVariants (fields : List (String × Json)) : Option (List Json) :=
  match lookupStr fields "anyOf" with
  | some (.arr vs) => some vs
  | _ =>
    match lookupStr fields "oneOf" with
    | some (.arr vs) => some vs
    | _ => none

/-- A string field passing the `typeof … === "string" && ….trim()`
gate, yielding the trimmed text (the description candidates). -/
def strFieldTrimmed (j : Json) (k : String) : Option String :=
  match getStrField j k with
  | some s => if (trimChars s.data).isEmpty then none else some (strTrim s)
  | none => none

/-- A string field passing the same gate but kept untrimmed (the
example candidates and the literal names). -/
def strFieldPresent (j : Json) (k : String) : Option String :=
  match getStrField j k with
  | some s => if (trimChars s.data).isEmpty then none else some s
  | none => none

/-- Model of `nameSchema.examples[0]` when `examples` is an array whose first
element is a non-blank string, untrimmed (source lines 379-384). -/
def examplesHead (j : Json) : Option String :=
  match lookupField j "examples" with
  | some (.arr (.str s :: _)) => if (trimChars s.data).isEmpty then none else some s
  | _ => none

/-- Model of `nameSchema.enum` as a literal name: a one-element array holding a
non-blank string, untrimmed (source lines 347-354). -/
def enumCommandName (nameSchema : Json) : Option String :=
  match lookupField nameSchema "enum" with
  | some (.arr [.str s]) => if (trimChars s.data).isEmpty then none else some s
  | _ => none

/-- The literal command name of a variant: a non-blank string `const`,
else the single-value `enum` (source lines 343-354); both untrimmed.
-/
def literalCommandName (nameSchema : Json) : Option String :=
  match getStrField nameSchema "const" with
  | some s => if (trimChars s.data).isEmpty then enumCommandName nameSchema else some s
  | none => enumCommandName nameSchema

/-- Model of `variant?.properties?.name`. -/
def variantNameSchema (v : Json) : Option Json :=
  (lookupField v "properties").bind (fun p => lookupField p "name")

/-- Model of `variant?.properties?.parameters` (or the existing command's
`parameters`) when it is a non-null, non-array object (source lines
399-412). -/
def variantParameters (v : Json) (existingCommand : Option Json) : Option Json :=
  match (lookupField v "properties").bind (fun p => lookupField p "parameters") with
  | some (.obj pf) => some (.obj pf)
  | _ =>
    match existingCommand.bind (fun c => lookupField c "parameters") with
    | some (.obj pf) => some (.obj pf)
    | _ => none

/-- One variant of the conversion loop (source lines 334-415): a
non-object variant or a variant without a literal name aborts the
whole conversion; otherwise the description is the first non-blank of
the name schema's, the variant's, and the existing command's
descriptions — those three trimmed — with the command name as final
fallback; the example is the first non-blank of the name schema's
`ubiquity:example`, its `examples[0]`, and the existing command's
`ubiquity:example` — untrimmed — else `/name`; `parameters` is
attached when found. -/
def convertVariant (existingCommands : Json) (v : Json) : Except String (String × Json) :=
  if ¬isObjectLikeJson v then .error "commandSchema variants must be objects"
  else
    match variantNameSchema v with
    | none =>
      .error "Each command variant must define a literal \"name\" (name.const or single-value name.enum)"
    | some nameSchema =>
      match literalCommandName nameSchema with
      | none =>
        .error "Each command variant must define a literal \"name\" (name.const or single-value name.enum)"
      | some commandName =>
        let existingCommand := lookupField existingCommands commandName
        let description :=
          ((strFieldTrimmed nameSchema "description") <|>
            (strFieldTrimmed v "description") <|>
            (existingCommand.bind (fun c => strFieldTrimmed c "description"))).getD commandName
        let exampleText :=
          ((strFieldPresent nameSchema "ubiquity:example") <|>
            (examplesHead nameSchema) <|>
            (existingCommand.bind (fun c => strFieldPresent c "ubiquity:example"))).getD
            ("/" ++ commandName)
        let baseCommand :=
          [("description", Json.str description), ("ubiquity:example", Json.str exampleText)]
        let command :=
          match variantParameters v existingCommand with
          | some p => Json.obj (baseCommand ++ [("parameters", p)])
          | none => Json.obj baseCommand
        .ok (commandName, command)

/-- The variant fold: later variants with the same name overwrite
earlier ones in place (`commands[commandName] = command` on a
JavaScript object keeps the first insertion position). -/
def convertVariantsAux (existingCommands : Json) :
    List Json → List (String × Json) → Except String (List (String × Json))
  | [], acc => .ok acc
  | v :: rest, acc =>
    match convertVariant existingCommands v with
    | .error e => .error e
    | .ok (n, cmd) => convertVariantsAux existingCommands rest (setAssoc acc n cmd)

/-- Model of `convertTypeBoxCommandSchema(commandSchema, existingCommands)`
(source lines 310-426): non-objects are rejected, the `anyOf`/`oneOf`
variants must be non-empty, each variant is converted, and the derived
map must itself pass `validateCommands`. -/
def convertTypeBoxCommandSchema (commandSchema : Json) (existingCommands : Json) :
    Except String (List (String × Json)) :=
  match commandSchema with
  | .obj fields =>
    match unionVariants fields with
    | none => .error "commandSchema is missing anyOf/oneOf command variants"
    | some [] => .error "commandSchema is missing anyOf/oneOf command variants"
    | some variants =>
      match convertVariantsAux existingCommands variants [] with
      | .error e => .error e
      | .ok entries =>
        match validateCommands (.obj entries) with
        | some ve => .error ("derived commands are invalid: " ++ ve)
        | none => .ok entries
  | _ => .error "commandSchema must be an object"

/-- Model of `looksLikeTypeBoxUnion` (source lines 536-539): a non-null object
with an array `anyOf` or `oneOf`. -/
def looksLikeTypeBoxUnion (j : Json) : Bool :=
  match j with
  | .obj fields =>
    match lookupStr fields "anyOf" with
    | some (.arr _) => true
    | _ =>
      match lookupStr fields "oneOf" with
      | some (.arr _) => true
      | _ => false
  | _ => false

/-! ## buildManifest (source lines 104-127, 447-471, 486-601) -/

/-- The `skipBotEvents` action input: a boolean, a string, or absent
(any other type also falls to the final default). -/
inductive SkipBotInput where
  | ofBool (b : Bool)
  | ofString (s : String)
  | missing
  deriving Repr, DecidableEq

/-- Model of `normalizeSkipBotEvents(value)` (source lines 104-127): booleans
pass through; strings are trimmed and lower-cased, `true`/`false`
parse, other non-blank strings warn and default to `true`; everything
else defaults to `true` silently. -/
def normalizeSkipBotEvents : SkipBotInput → Bool × Option String
  | .ofBool b => (b, none)
  | .ofString s =>
    let normalized : String := ⟨(trimChars s.data).map lowerChar⟩
    if normalized = "true" then (true, none)
    else if normalized = "false" then (false, none)
    else if ¬normalized.data.isEmpty then
      (true, some ("manifest.skipBotEvents: invalid action input value \"" ++ s ++
        "\" (expected \"true\" or \"false\"). Defaulting to true."))
    else (true, none)
  | .missing => (true, none)

/-- The deterministic field order (source lines 448-457). -/
def manifestFieldOrder : List String :=
  ["name", "short_name", "description", "commands", "ubiquity:listeners",
    "skipBotEvents", "configuration", "homepage_url"]

/-- Model of `orderManifestFields(manifest)` (source lines 447-471): the listed
fields first, in that order, then the remaining keys in their original
order. -/
def orderManifestFields (manifest : List (String × Json)) : List (String × Json) :=
  (manifestFieldOrder.filterMap (fun k => (lookupStr manifest k).map (fun v => (k, v)))) ++
    manifest.filter (fun kv => ¬manifestFieldOrder.contains kv.1)

/-- A package.json string field passing the
`pkg?.k && typeof pkg.k === "string" && pkg.k.trim()` gate, untrimmed.
-/
def packageStrField (packageJson : Option (List (String × Json))) (k : String) :
    Option String :=
  match packageJson with
  | none => none
  | some pj =>
    match lookupStr pj k with
    | some (.str s) => if (trimChars s.data).isEmpty then none else some s
    | _ => none

/-- The `name` step of `buildManifest` (source lines 496-510): a
usable package.json name is copied verbatim; else a truthy existing
value is kept with a warning; else the field stays absent with a
warning.  The source interpolates the kept value into its warning; the
model keeps the fixed message text. -/
def applyNameField (manifest : List (String × Json))
    (packageJson : Option (List (String × Json))) : List (String × Json) × List String :=
  match packageStrField packageJson "name" with
  | some s => (setAssoc manifest "name" (.str s), [])
  | none =>
    if (match lookupStr manifest "name" with
        | some v => jsonTruthy v
        | none => false) then
      (manifest, ["manifest.name: no \"name\" found in package.json. Keeping existing manifest value."])
    else
      (manifest, ["manifest.name: no \"name\" found in package.json and no existing value in manifest.json. Field will be absent."])

/-- The `description` step (source lines 514-528), mirroring the
`name` step. -/
def applyDescriptionField (manifest : List (String × Json))
    (packageJson : Option (List (String × Json))) : List (String × Json) × List String :=
  match packageStrField packageJson "description" with
  | some s => (setAssoc manifest "description" (.str s), [])
  | none =>
    if (match lookupStr manifest "description" with
        | some v => jsonTruthy v
        | none => false) then
      (manifest, ["manifest.description: no \"description\" found in package.json. Keeping existing manifest value."])
    else
      (manifest, ["manifest.description: no \"description\" found in package.json and no existing value in manifest.json. Field will be absent."])

/-- The `commands` step (source lines 530-561): a valid schema is set
verbatim; an invalid one that looks like a TypeBox union is converted
against the manifest's current commands and set on success, warned on
failure; an invalid non-union warns; a missing schema warns unless
allowed. -/
def applyCommandsField (manifest : List (String × Json)) (commandSchema : Option Json)
    (allowMissingCommandSchema : Bool) : List (String × Json) × List String :=
  match commandSchema with
  | none =>
    if allowMissingCommandSchema then (manifest, [])
    else (manifest, ["manifest.commands: no command schema found from entrypoint metadata. Field will not be auto-generated."])
  | some .null =>
    if allowMissingCommandSchema then (manifest, [])
    else (manifest, ["manifest.commands: no command schema found from entrypoint metadata. Field will not be auto-generated."])
  | some cs =>
    match validateCommands cs with
    | none => (setAssoc manifest "commands" cs, [])
    | some validationError =>
      if ¬looksLikeTypeBoxUnion cs then
        (manifest, ["manifest.commands: commandSchema export is invalid (" ++ validationError ++ "). Skipping."])
      else
        match convertTypeBoxCommandSchema cs ((lookupStr manifest "commands").getD (.obj [])) with
        | .ok entries => (setAssoc manifest "commands" (.obj entries), [])
        | .error conversionError =>
          (manifest, ["manifest.commands: commandSchema export found but could not be converted (" ++ conversionError ++ "). Skipping."])

/-- The `ubiquity:listeners` step (source lines 563-580): missing
events warn; invalid events warn and leave the field untouched; valid
events — including the empty list — are set. -/
def applyListenersField (manifest : List (String × Json)) (supportedEvents : Option Json) :
    List (String × Json) × List String :=
  match supportedEvents with
  | none =>
    (manifest, ["manifest[\"ubiquity:listeners\"]: no supported events could be derived from entrypoint metadata. Field will not be auto-generated."])
  | some ev =>
    match validateListeners ev with
    | some validationError =>
      (manifest, ["manifest[\"ubiquity:listeners\"]: supported events found but invalid: " ++ validationError ++ ". Skipping."])
    | none => (setAssoc manifest "ubiquity:listeners" ev, [])

/-- The `configuration` step (source lines 588-598): a truthy settings
schema is revived and set; else a warning. -/
def applyConfigurationField (manifest : List (String × Json))
    (pluginSettingsSchema : Option Json) : List (String × Json) × List String :=
  match pluginSettingsSchema with
  | some s =>
    if jsonTruthy s then (setAssoc manifest "configuration" (reviveSchema s), [])
    else (manifest, ["manifest.configuration: no settings schema found from entrypoint metadata. Configuration will not be auto-generated."])
  | none =>
    (manifest, ["manifest.configuration: no settings schema found from entrypoint metadata. Configuration will not be auto-generated."])

/-- The values extracted from the plugin module. -/
structure PluginModuleValues where
  pluginSettingsSchema : Option Json
  commandSchema : Option Json

/-- Repository coordinates (`repository@refName`). -/
structure RepoInfo where
  repository : String
  refName : String

/-- The options `buildManifest` receives.  `supportedEvents` models
`options.supportedEvents` with `none` for both `undefined` and `null`
(the source treats them alike at line 564). -/
structure BuildOptions where
  supportedEvents : Option Json
  skipBotEvents : SkipBotInput
  allowMissingCommandSchema : Bool

/-- Model of `buildManifest(existingManifest, pluginModule, packageJson,
repoInfo, options)` (source lines 486-601): the field steps in source
order, then the deterministic field ordering; warnings accumulate in
step order. -/
def buildManifest (existingManifest : List (String × Json))
    (pluginModule : PluginModuleValues) (packageJson : Option (List (String × Json)))
    (repoInfo : RepoInfo) (options : BuildOptions) :
    List (String × Json) × List String :=
  let step1 := applyNameField existingManifest packageJson
  let m2 := setAssoc step1.1 "short_name" (.str (repoInfo.repository ++ "@" ++ repoInfo.refName))
  let step3 := applyDescriptionField m2 packageJson
  let step4 := applyCommandsField step3.1 pluginModule.commandSchema
    options.allowMissingCommandSchema
  let step5 := applyListenersField step4.1 options.supportedEvents
  let nsb := normalizeSkipBotEvents options.skipBotEvents
  let m6 := setAssoc step5.1 "skipBotEvents" (.bool nsb.1)
  let w6 := match nsb.2 with
    | some w => [w]
    | none => ([] : List String)
  let step7 := applyConfigurationField m6 pluginModule.pluginSettingsSchema
  (orderManifestFields step7.1, step1.2 ++ step3.2 ++ step4.2 ++ step5.2 ++ w6 ++ step7.2)

/-! ## Derived checks used by the claims -/

/-- The options-object check of `extractManifestMetadataFromEntrypoint`
(source lines 1649-1660): the options expression must parse as an
object literal whose direct properties include `settingsSchema`;
spread entries live in `spreads` and never satisfy the check. -/
def checkOptionsHasSettingsSchema (optionsExpression : String) :
    Except ResolveError ParsedObjectLiteral :=
  match parseObjectLiteral optionsExpression with
  | none => .error .optionsParseFailed
  | some options =>
    if (lookupStr options.properties "settingsSchema").isSome then .ok options
    else .error .missingSettingsSchema

/-- Join character lists with a delimiter: the inverse side of
`splitTopLevel`'s slicing. -/
def joinWithChar (delim : Char) : List (List Char) → List Char
  | [] => []
  | [part] => part
  | part :: rest => part ++ delim :: joinWithChar delim rest

/-- Join parts with a delimiter character. -/
def joinWith (delim : Char) (parts : List String) : String :=
  ⟨joinWithChar delim (parts.map (fun s => s.data))⟩

/-! ## Concrete sample inputs -/

/-- One file declaring `type A = B; type B = A` — the circular alias
chain of the claim. -/
def cyclicAliasModule : SourceModule :=
  ⟨"src/types.ts", [("A", "B"), ("B", "A")], [], [], []⟩

/-- Two files importing the alias from each other. -/
def importCycleModules : List SourceModule :=
  [⟨"src/a.ts", [], [("A", ⟨"A", "src/b.ts"⟩)], [], []⟩,
    ⟨"src/b.ts", [], [("A", ⟨"A", "src/a.ts"⟩)], [], []⟩]

/-- A module whose alias is a string-literal union with a repeated
member. -/
def eventsModule : SourceModule :=
  ⟨"src/events.ts",
    [("SupportedEvents",
      "\"issues.opened\" | \"issue_comment.created\" | \"issues.opened\"")],
    [], [], []⟩

/-- The entry module importing that alias. -/
def mainModule : SourceModule :=
  ⟨"src/main.ts", [], [("SupportedEvents", ⟨"SupportedEvents", "src/events.ts"⟩)], [], []⟩

/-- A hub star-re-exporting a dead-end module before the one that
declares the alias. -/
def starHubModules : List SourceModule :=
  [⟨"src/hub.ts", [], [], [], ["src/dead.ts", "src/live.ts"]⟩,
    ⟨"src/dead.ts", [], [], [], []⟩,
    ⟨"src/live.ts", [("E", "\"a.b\"")], [], [], []⟩]

/-- The claim's revival sample:
`{properties: {a: {default: 1}, b: {}}, required: ["a", "b", "a"]}`
(with the `a` entry repeated to exercise the `Set`). -/
def revivalSampleSchema : Json :=
  .obj [("properties", .obj [("a", .obj [("default", .num 1)]), ("b", .obj [])]),
    ("required", .arr [.str "a", .str "b", .str "a"])]

/-- A node whose every required property declares a default. -/
def allDefaultedSchema : Json :=
  .obj [("properties", .obj [("a", .obj [("default", .num 1)])]),
    ("required", .arr [.str "a"])]

/-- A schema nesting `revivalSampleSchema` one level down. -/
def nestedRevivalSchema : Json :=
  .obj [("type", .str "object"),
    ("properties", .obj [("inner", revivalSampleSchema)]),
    ("required", .arr [.str "inner"])]

/-- The single variant of the claim's conversion sample:
`{properties: {name: {const: "start", examples: ["/start"]}}}`. -/
def startVariant : Json :=
  .obj [("properties",
    .obj [("name", .obj [("const", .str "start"), ("examples", .arr [.str "/start"])])])]

/-- The claim's conversion sample:
`{anyOf: [{properties: {name: {const: "start", examples: ["/start"]}}}]}`.
-/
def startUnionSchema : Json :=
  .obj [("anyOf", .arr [startVariant])]

/-- A variant whose only description lives on the variant itself
(blank-padded, exercising the trim). -/
def variantDescVariant : Json :=
  .obj [("properties", .obj [("name", .obj [("const", .str "v")])]),
    ("description", .str " vd ")]

/-- A variant exercising the description and example precedence: the
name schema carries both, the variant and the existing command carry
competing descriptions. -/
def goVariant : Json :=
  .obj [("properties", .obj [
    ("name", .obj [("const", .str "go"), ("description", .str "  from name schema  "),
      ("ubiquity:example", .str " /go now ")]),
    ("parameters", .obj [("type", .str "object")])]),
    ("description", .str "from variant")]

/-- A `oneOf` union around `goVariant`. -/
def goUnionSchema : Json :=
  .obj [("oneOf", .arr [goVariant])]

/-- A pre-existing command entry for `go`. -/
def existingGoCommands : Json :=
  .obj [("go", .obj [("description", .str "old desc"), ("ubiquity:example", .str "/old")])]

/-- A variant whose description falls back to the existing command and
whose example falls back to `/name`. -/
def fallbackVariant : Json :=
  .obj [("properties", .obj [("name", .obj [("const", .str "go")])])]

/-- A variant without a literal name. -/
def noNameVariant : Json :=
  .obj [("properties", .obj [("name", .obj [("type", .str "string")])])]

/-- A sample repository. -/
def sampleRepo : RepoInfo :=
  ⟨"ubiquity-os/plugin", "main"⟩

/-- Empty build options deriving the given supported events. -/
def sampleOptionsWith (supportedEvents : Option Json) : BuildOptions :=
  ⟨supportedEvents, .missing, false⟩

/-- A `createPlugin` callsite sample. -/
def sampleCallsiteA : Callsite :=
  ⟨"createPlugin", "src/main.ts", ["TConfig", "TEnv", "TCommand", "TEvents"],
    ["a", "b", "c"], 10⟩

/-- A second `createPlugin` callsite. -/
def sampleCallsiteB : Callsite :=
  ⟨"createPlugin", "src/other.ts", [], ["x"], 0⟩

/-- A `createActionsPlugin` callsite sample. -/
def sampleCallsiteF : Callsite :=
  ⟨"createActionsPlugin", "src/action.ts", ["TConfig", "TEnv", "TCommand", "TEvents"],
    ["a", "b"], 5⟩

/-! ## Theorems -/


theorem lineCommentEnd_ge (cs : List Char) (i : Nat) (h : i < cs.length) :
    i ≤ lineCommentEnd cs i := by
  unfold lineCommentEnd
  cases hf : (cs.drop i).findIdx? (fun c => c = '\n') with
  | none => simp only; omega
  | some k => simp only; omega

theorem blockCommentResume_ge (cs : List Char) (i : Nat) :
    i + 2 ≤ blockCommentResume cs i := by
  unfold blockCommentResume
  cases hf : findStarSlash (cs.drop (i + 2)) with
  | none =>
    simp only
    exact le_trans (Nat.le_max_left _ _) (Nat.le_add_right _ 2)
  | some k => simp only; omega

theorem scanBounds : ∀ fuel : Nat,
    (∀ (cs : List Char) (q : Option Char) (i : Nat) (r : Int),
      skipStrLoop cs fuel q i = some r →
      ((i : Int) ≤ r ∧ r < (cs.length : Int)) ∨ r = (cs.length : Int) - 1) ∧
    (∀ (cs : List Char) (oc cc : Char) (i : Nat) (d : Int) (j : Int),
      fmdLoop cs oc cc fuel i d = some j →
      j = -1 ∨ ((i : Int) ≤ j ∧ j < (cs.length : Int) ∧ cs.get? j.toNat = some cc)) := by
  intro fuel
  induction fuel with
  | zero =>
    constructor
    · intro cs q i r h
      simp [skipStrLoop] at h
    · intro cs oc cc i d j h
      simp [fmdLoop] at h
  | succ fuel ih =>
    obtain ⟨ihS, ihF⟩ := ih
    constructor
    · intro cs q i r h
      rw [skipStrLoop] at h
      split at h
      · -- get? i = none
        right
        exact (Option.some_inj.mp h).symm
      · -- get? i = some c
        rename_i c heq
        have hilen : i < cs.length := by
          by_contra hge
          rw [List.get?_eq_none.mpr (by omega)] at heq
          exact Option.noConfusion heq
        split at h
        · -- escape
          rcases ihS _ _ _ _ h with ⟨h1, h2⟩ | h1
          · left; constructor <;> omega
          · right; exact h1
        · split at h
          · -- interpolation
            split at h
            · exact Option.noConfusion h
            · rename_i e hfmd
              split at h
              · right; exact (Option.some_inj.mp h).symm
              · rename_i hne
                have he := ihF _ _ _ _ _ _ hfmd
                rcases he with he | ⟨he1, he2, _⟩
                · exact absurd he hne
                · rcases ihS _ _ _ _ h with ⟨h1, h2⟩ | h1
                  · left
                    constructor
                    · omega
                    · exact h2
                  · right; exact h1
          · split at h
            · -- closing quote
              left
              have : r = (i : Int) := (Option.some_inj.mp h).symm
              subst this
              constructor
              · omega
              · exact_mod_cast hilen
            · -- plain character
              rcases ihS _ _ _ _ h with ⟨h1, h2⟩ | h1
              · left; constructor <;> omega
              · right; exact h1
    · intro cs oc cc i d j h
      rw [fmdLoop] at h
      split at h
      · -- get? i = none
        left
        exact (Option.some_inj.mp h).symm
      · rename_i c heq
        have hilen : i < cs.length := by
          by_contra hge
          rw [List.get?_eq_none.mpr (by omega)] at heq
          exact Option.noConfusion heq
        split at h
        · -- string literal
          split at h
          · exact Option.noConfusion h
          · rename_i r hskip
            have hr : (i : Int) ≤ r := by
              rcases ihS _ _ _ _ hskip with ⟨h1, _⟩ | h1 <;> omega
            rcases ihF _ _ _ _ _ _ h with hj | ⟨h1, h2, h3⟩
            · left; exact hj
            · right
              refine ⟨by omega, h2, h3⟩
        · split at h
          · -- line comment
            have hge := lineCommentEnd_ge cs i hilen
            rcases ihF _ _ _ _ _ _ h with hj | ⟨h1, h2, h3⟩
            · left; exact hj
            · right; refine ⟨by omega, h2, h3⟩
          · split at h
            · -- block comment
              have hge := blockCommentResume_ge cs i
              rcases ihF _ _ _ _ _ _ h with hj | ⟨h1, h2, h3⟩
              · left; exact hj
              · right; refine ⟨by omega, h2, h3⟩
            · split at h
              · -- opener
                rcases ihF _ _ _ _ _ _ h with hj | ⟨h1, h2, h3⟩
                · left; exact hj
                · right; refine ⟨by omega, h2, h3⟩
              · split at h
                · -- closer
                  rename_i hcceq
                  split at h
                  · right
                    have hj : j = (i : Int) := (Option.some_inj.mp h).symm
                    subst hj
                    refine ⟨le_refl _, by exact_mod_cast hilen, ?_⟩
                    simp only [Int.toNat_natCast]
                    rw [heq, hcceq]
                  · rcases ihF _ _ _ _ _ _ h with hj | ⟨h1, h2, h3⟩
                    · left; exact hj
                    · right; refine ⟨by omega, h2, h3⟩
                · -- other character
                  rcases ihF _ _ _ _ _ _ h with hj | ⟨h1, h2, h3⟩
                  · left; exact hj
                  · right; refine ⟨by omega, h2, h3⟩

theorem scanSuff : ∀ fuel : Nat,
    (∀ (cs : List Char) (q : Option Char) (i : Nat),
      2 * (cs.length - i) + 1 ≤ fuel → skipStrLoop cs fuel q i ≠ none) ∧
    (∀ (cs : List Char) (oc cc : Char) (i : Nat) (d : Int),
      2 * (cs.length - i) + 1 ≤ fuel → fmdLoop cs oc cc fuel i d ≠ none) := by
  intro fuel
  induction fuel with
  | zero =>
    constructor
    · intro cs q i hb; omega
    · intro cs oc cc i d hb; omega
  | succ fuel ih =>
    obtain ⟨ihS, ihF⟩ := ih
    constructor
    · intro cs q i hb
      rw [skipStrLoop]
      split
      · simp
      · rename_i c heq
        have hilen : i < cs.length := by
          by_contra hge
          rw [List.get?_eq_none.mpr (by omega)] at heq
          exact Option.noConfusion heq
        split
        · exact ihS _ _ _ (by omega)
        · split
          · cases hfm : fmdLoop cs '{' '}' fuel (i + 1) 0 with
            | none => exact absurd hfm (ihF _ _ _ _ _ (by omega))
            | some e =>
              dsimp only
              split
              · simp
              · rename_i hne
                have hbd := (scanBounds fuel).2 _ _ _ _ _ _ hfm
                rcases hbd with hbd | ⟨h1, h2, _⟩
                · exact absurd hbd hne
                · exact ihS _ _ _ (by omega)
          · split
            · simp
            · exact ihS _ _ _ (by omega)
    · intro cs oc cc i d hb
      rw [fmdLoop]
      split
      · simp
      · rename_i c heq
        have hilen : i < cs.length := by
          by_contra hge
          rw [List.get?_eq_none.mpr (by omega)] at heq
          exact Option.noConfusion heq
        split
        · cases hsk : skipStrLoop cs fuel (cs.get? i) (i + 1) with
          | none => exact absurd hsk (ihS _ _ _ (by omega))
          | some r =>
            dsimp only
            have hbd := (scanBounds fuel).1 _ _ _ _ hsk
            have hr : (i : Int) ≤ r := by rcases hbd with ⟨h1, _⟩ | h1 <;> omega
            exact ihF _ _ _ _ _ (by omega)
        · split
          · have hge := lineCommentEnd_ge cs i hilen
            exact ihF _ _ _ _ _ (by omega)
          · split
            · have hge := blockCommentResume_ge cs i
              exact ihF _ _ _ _ _ (by omega)
            · split
              · exact ihF _ _ _ _ _ (by omega)
              · split
                · split
                  · simp
                  · exact ihF _ _ _ _ _ (by omega)
                · exact ihF _ _ _ _ _ (by omega)

theorem skipStringLiteralFuel_total (cs : List Char) (start : Nat) :
    skipStringLiteralFuel cs (scanFuel cs) start ≠ none := by
  unfold skipStringLiteralFuel scanFuel
  exact (scanSuff _).1 _ _ _ (by omega)

theorem findMatchingDelimiterFuel_total (cs : List Char) (start : Nat) (oc cc : Char) :
    findMatchingDelimiterFuel cs (scanFuel cs) start oc cc ≠ none := by
  unfold findMatchingDelimiterFuel scanFuel
  split
  · exact (scanSuff _).2 _ _ _ _ _ (by omega)
  · simp

theorem findMatchingDelimiter_eq_some (input : String) (start : Nat) (oc cc : Char) :
    findMatchingDelimiterFuel input.data (scanFuel input.data) start oc cc =
      some (findMatchingDelimiter input start oc cc) := by
  unfold findMatchingDelimiter
  cases h : findMatchingDelimiterFuel input.data (scanFuel input.data) start oc cc with
  | none => exact absurd h (findMatchingDelimiterFuel_total _ _ _ _)
  | some r => rfl

theorem sliceTail (cs : List Char) (start : Nat) :
    (cs.drop start).take (cs.length - start) = cs.drop start :=
  List.take_of_length_le (by simp)

theorem joinWithChar_cons (d : Char) (x : List Char) (rest : List (List Char))
    (h : rest ≠ []) : joinWithChar d (x :: rest) = x ++ d :: joinWithChar d rest := by
  cases rest with
  | nil => exact absurd rfl h
  | cons y ys => rfl

theorem dropDecomp (cs : List Char) (start i : Nat) (c : Char) (hle : start ≤ i)
    (hget : cs.get? i = some c) :
    cs.drop start = (cs.drop start).take (i - start) ++ c :: cs.drop (i + 1) := by
  obtain ⟨hlt, hgetc⟩ := List.get?_eq_some.mp hget
  conv_lhs => rw [← List.take_append_drop (i - start) (cs.drop start)]
  congr 1
  rw [List.drop_drop]
  have hss : start + (i - start) = i := by omega
  rw [hss, List.drop_eq_getElem_cons hlt]
  congr 1

theorem splitLoop_ne_nil : ∀ (fuel : Nat) (cs : List Char) (delim : Char) (track : Bool)
    (i start : Nat) (pd bd kd ad : Int),
    splitLoop cs delim track fuel i start pd bd kd ad ≠ [] := by
  intro fuel
  induction fuel with
  | zero => intro cs delim track i start pd bd kd ad; rw [splitLoop]; simp
  | succ fuel ih =>
    intro cs delim track i start pd bd kd ad
    rw [splitLoop]
    split
    · simp
    · split
      · split
        · simp
        · exact ih _ _ _ _ _ _ _ _ _
      · split
        · exact ih _ _ _ _ _ _ _ _ _
        · split
          · exact ih _ _ _ _ _ _ _ _ _
          · split
            · split
              · simp
              · exact ih _ _ _ _ _ _ _ _ _

theorem splitLoop_join : ∀ (fuel : Nat) (cs : List Char) (delim : Char) (track : Bool)
    (i start : Nat) (pd bd kd ad : Int), start ≤ i →
    joinWithChar delim (splitLoop cs delim track fuel i start pd bd kd ad) =
      cs.drop start := by
  intro fuel
  induction fuel with
  | zero =>
    intro cs delim track i start pd bd kd ad hle
    rw [splitLoop]
    simp only [joinWithChar]
    exact sliceTail cs start
  | succ fuel ih =>
    intro cs delim track i start pd bd kd ad hle
    rw [splitLoop]
    split
    · simp only [joinWithChar]
      exact sliceTail cs start
    · rename_i c heq
      have hilen : i < cs.length := by
        by_contra hge
        rw [List.get?_eq_none.mpr (by omega)] at heq
        exact Option.noConfusion heq
      split
      · -- string literal
        cases hsk : skipStrLoop cs fuel (cs.get? i) (i + 1) with
        | none =>
          dsimp only
          simp only [joinWithChar]
          exact sliceTail cs start
        | some r =>
          dsimp only
          have hbd := (scanBounds fuel).1 _ _ _ _ hsk
          have hr : (i : Int) ≤ r := by rcases hbd with ⟨h1, _⟩ | h1 <;> omega
          exact ih _ _ _ _ _ _ _ _ _ (by omega)
      · split
        · -- line comment
          have hge := lineCommentEnd_ge cs i hilen
          exact ih _ _ _ _ _ _ _ _ _ (by omega)
        · split
          · -- block comment
            have hge := blockCommentResume_ge cs i
            exact ih _ _ _ _ _ _ _ _ _ (by omega)
          · -- depth update
            cases hsd : splitDepthStep track c pd bd kd ad with
            | mk pd' rest3 =>
              cases rest3 with
              | mk bd' rest2 =>
                cases rest2 with
                | mk kd' ad' =>
                  dsimp only
                  split
                  · -- cut at the delimiter
                    rename_i hcut
                    rw [joinWithChar_cons _ _ _ (splitLoop_ne_nil _ _ _ _ _ _ _ _ _ _)]
                    rw [ih _ _ _ _ _ _ _ _ _ (le_refl (i + 1))]
                    have hdelim : c = delim := hcut.1
                    rw [← hdelim]
                    exact (dropDecomp cs start i c hle heq).symm
                  · exact ih _ _ _ _ _ _ _ _ _ (by omega)

/-- C9: `findMatchingDelimiter` is total — the fuelled scan always completes
at the proved budget — it returns `-1` whenever the start index does not hold
the opener or the construct is unterminated, and otherwise an index at or
after the start holding the closing delimiter; string literals, line and
block comments, template interpolations, and nested same-kind pairs are
skipped, as the concrete runs demonstrate. -/
theorem claim_C9 :
    (∀ (input : String) (startIndex : Nat) (openC closeC : Char),
      findMatchingDelimiterFuel input.data (scanFuel input.data) startIndex openC closeC =
        some (findMatchingDelimiter input startIndex openC closeC)) ∧
    (∀ (input : String) (startIndex : Nat) (openC closeC : Char),
      input.data.get? startIndex ≠ some openC →
        findMatchingDelimiter input startIndex openC closeC = -1) ∧
    (∀ (input : String) (startIndex : Nat) (openC closeC : Char),
      findMatchingDelimiter input startIndex openC closeC = -1 ∨
        ((startIndex : Int) ≤ findMatchingDelimiter input startIndex openC closeC ∧
          findMatchingDelimiter input startIndex openC closeC < (input.data.length : Int) ∧
          input.data.get? (findMatchingDelimiter input startIndex openC closeC).toNat =
            some closeC)) ∧
    findMatchingDelimiter "(())" 0 '(' ')' = 3 ∧
    findMatchingDelimiter "(\")\")" 0 '(' ')' = 4 ∧
    findMatchingDelimiter "(//)\n)" 0 '(' ')' = 5 ∧
    findMatchingDelimiter "(/*)*/)" 0 '(' ')' = 6 ∧
    findMatchingDelimiter "\x7b`$\x7b\x7d`\x7d" 0 '{' '}' = 6 ∧
    findMatchingDelimiter "((" 0 '(' ')' = -1 ∧
    findMatchingDelimiter "a{b}c" 0 '{' '}' = -1 := by
  refine ⟨findMatchingDelimiter_eq_some, ?_, ?_, by decide, by decide, by decide,
    by decide, by decide, by decide, by decide⟩
  · intro input startIndex openC closeC h
    simp only [findMatchingDelimiter, findMatchingDelimiterFuel, if_neg h]
  · intro input startIndex openC closeC
    have h1 := findMatchingDelimiter_eq_some input startIndex openC closeC
    unfold findMatchingDelimiterFuel at h1
    split at h1
    · exact (scanBounds _).2 _ _ _ _ _ _ h1
    · left
      exact (Option.some_inj.mp h1).symm

theorem claim_C9_witness : findMatchingDelimiter "x" 0 '(' ')' = -1 :=
  claim_C9.2.1 "x" 0 '(' ')' (by decide)

/-- C10: `splitTopLevel` is lossless — the part list is never empty and
joining the parts with the delimiter reconstructs the input exactly,
including characters inside strings, comments, and nested brackets; splits
happen only at top-level delimiters, as the concrete runs demonstrate. -/
theorem claim_C10 :
    (∀ (input : String) (delim : Char) (track : Bool),
      splitTopLevel input delim track ≠ []) ∧
    (∀ (input : String) (delim : Char) (track : Bool),
      joinWith delim (splitTopLevel input delim track) = input) ∧
    splitTopLevel "f(a,b),c" ',' false = ["f(a,b)", "c"] ∧
    splitTopLevel "A<B,C>,D" ',' true = ["A<B,C>", "D"] ∧
    splitTopLevel "A<B,C>,D" ',' false = ["A<B", "C>", "D"] ∧
    splitTopLevel "\"a,b\",c" ',' false = ["\"a,b\"", "c"] ∧
    splitTopLevel "a,{b,c},d" ',' false = ["a", "{b,c}", "d"] ∧
    splitTopLevel "" ',' false = [""] := by
  refine ⟨?_, ?_, by decide, by decide, by decide, by decide, by decide, by decide⟩
  · intro input delim track h
    unfold splitTopLevel at h
    exact splitLoop_ne_nil _ _ _ _ _ _ _ _ _ _ (List.map_eq_nil_iff.mp h)
  · intro input delim track
    unfold splitTopLevel joinWith
    rw [List.map_map]
    have hmap : ((fun s => s.data) ∘ fun cs => (⟨cs⟩ : String)) = id := rfl
    rw [hmap, List.map_id]
    rw [splitLoop_join _ _ _ _ _ _ _ _ _ _ (le_refl 0)]
    rw [List.drop_zero]

theorem lookupStr_mem {α : Type} : ∀ (l : List (String × α)) (k : String) (v : α),
    lookupStr l k = some v → (k, v) ∈ l := by
  intro l
  induction l with
  | nil => intro k v h; exact Option.noConfusion h
  | cons kv rest ih =>
    intro k v h
    rw [lookupStr] at h
    split at h
    · rename_i heq
      obtain ⟨k', v'⟩ := kv
      simp only at heq h
      subst heq
      rw [← Option.some_inj.mp h]
      exact List.mem_cons_self _ _
    · right
      exact ih _ _ h

theorem dedupFirstAux_nodup : ∀ (l seen : List String),
    (dedupFirstAux seen l).Nodup ∧ ∀ x ∈ dedupFirstAux seen l, x ∉ seen := by
  intro l
  induction l with
  | nil => intro seen; constructor <;> simp [dedupFirstAux]
  | cons x rest ih =>
    intro seen
    rw [dedupFirstAux]
    split
    · constructor
      · exact (ih seen).1
      · exact (ih seen).2
    · rename_i hx
      constructor
      · refine List.nodup_cons.mpr ⟨?_, (ih (x :: seen)).1⟩
        intro hmem
        exact absurd (List.mem_cons_self x seen) ((ih (x :: seen)).2 _ hmem)
      · intro y hy
        rcases List.mem_cons.mp hy with hy | hy
        · rw [hy]; exact hx
        · intro hseen
          exact absurd (List.mem_cons_of_mem x hseen) ((ih (x :: seen)).2 _ hy)

theorem dedupFirst_nodup (l : List String) : (dedupFirst l).Nodup :=
  (dedupFirstAux_nodup l []).1

theorem dedupFirstAux_sublist : ∀ (l seen : List String), (dedupFirstAux seen l).Sublist l := by
  intro l
  induction l with
  | nil => intro seen; simp [dedupFirstAux]
  | cons x rest ih =>
    intro seen
    rw [dedupFirstAux]
    split
    · exact (ih seen).cons x
    · exact (ih (x :: seen)).cons₂ x

theorem dedupFirstAux_mem : ∀ (l seen : List String) (x : String),
    x ∈ dedupFirstAux seen l ↔ (x ∈ l ∧ x ∉ seen) := by
  intro l
  induction l with
  | nil => intro seen x; simp [dedupFirstAux]
  | cons y rest ih =>
    intro seen x
    rw [dedupFirstAux]
    split
    · rename_i hy
      rw [ih]
      constructor
      · rintro ⟨h1, h2⟩
        exact ⟨List.mem_cons_of_mem y h1, h2⟩
      · rintro ⟨h1, h2⟩
        rcases List.mem_cons.mp h1 with h1 | h1
        · exact absurd (h1 ▸ hy) h2
        · exact ⟨h1, h2⟩
    · rename_i hy
      constructor
      · intro hm
        rcases List.mem_cons.mp hm with hm | hm
        · exact ⟨hm ▸ List.mem_cons_self y rest, hm ▸ hy⟩
        · obtain ⟨h1, h2⟩ := (ih (y :: seen) x).mp hm
          exact ⟨List.mem_cons_of_mem y h1, fun hs => h2 (List.mem_cons_of_mem y hs)⟩
      · rintro ⟨h1, h2⟩
        rcases List.mem_cons.mp h1 with h1 | h1
        · subst h1; exact List.mem_cons_self x _
        · by_cases hxy : x = y
          · subst hxy; exact List.mem_cons_self x _
          · refine List.mem_cons_of_mem y ((ih (y :: seen) x).mpr ⟨h1, ?_⟩)
            intro hs
            rcases List.mem_cons.mp hs with hs | hs
            · exact hxy hs
            · exact h2 hs

theorem dedupFirst_sublist (l : List String) : (dedupFirst l).Sublist l :=
  dedupFirstAux_sublist l []

theorem dedupFirst_mem (l : List String) (x : String) : x ∈ dedupFirst l ↔ x ∈ l := by
  rw [dedupFirst, dedupFirstAux_mem]
  simp

/-- C1: entrypoint location prefers `createPlugin`: two or more preferred
callsites are a fatal ambiguity regardless of the fallback list, exactly one
is selected with the fallback ignored, and only an empty preferred list falls
through to the same rule for `createActionsPlugin`, with no matches at all a
fatal no-entrypoint error. -/
theorem claim_C1 (pluginCallsites actionCallsites : List Callsite) :
    (2 ≤ pluginCallsites.length →
      findEntrypointCallsite pluginCallsites actionCallsites =
        .error (.ambiguousEntrypoint "createPlugin")) ∧
    (∀ c, pluginCallsites = [c] →
      findEntrypointCallsite pluginCallsites actionCallsites = .ok c) ∧
    (pluginCallsites = [] →
      (2 ≤ actionCallsites.length →
        findEntrypointCallsite pluginCallsites actionCallsites =
          .error (.ambiguousEntrypoint "createActionsPlugin")) ∧
      (∀ c, actionCallsites = [c] →
        findEntrypointCallsite pluginCallsites actionCallsites = .ok c) ∧
      (actionCallsites = [] →
        findEntrypointCallsite pluginCallsites actionCallsites = .error .noEntrypoint)) := by
  refine ⟨?_, ?_, ?_⟩
  · intro h2
    rw [findEntrypointCallsite, if_pos (by omega)]
  · intro c hc
    subst hc
    rw [findEntrypointCallsite, if_neg (by simp)]
    rfl
  · intro hp
    subst hp
    refine ⟨?_, ?_, ?_⟩
    · intro h2
      rw [findEntrypointCallsite, if_neg (by simp)]
      simp only [List.head?_nil]
      rw [if_pos (by omega)]
    · intro c hc
      subst hc
      rw [findEntrypointCallsite, if_neg (by simp)]
      simp only [List.head?_nil]
      rw [if_neg (by simp)]
      rfl
    · intro ha
      subst ha
      rfl

theorem claim_C1_witness :
    findEntrypointCallsite [sampleCallsiteA, sampleCallsiteB] [sampleCallsiteF] =
        .error (.ambiguousEntrypoint "createPlugin") ∧
    findEntrypointCallsite [sampleCallsiteA] [sampleCallsiteF] = .ok sampleCallsiteA ∧
    findEntrypointCallsite [] [sampleCallsiteF] = .ok sampleCallsiteF ∧
    findEntrypointCallsite [] [] = .error .noEntrypoint :=
  ⟨(claim_C1 [sampleCallsiteA, sampleCallsiteB] [sampleCallsiteF]).1 (by decide),
    (claim_C1 [sampleCallsiteA] [sampleCallsiteF]).2.1 sampleCallsiteA rfl,
    ((claim_C1 [] [sampleCallsiteF]).2.2 rfl).2.1 sampleCallsiteF rfl,
    ((claim_C1 [] []).2.2 rfl).2.2 rfl⟩

/-- C3: the final supported-events list is the order-preserving set
difference of the resolved list and the parsed exclusions, and any exclusion
not naming a resolved event is a fatal error carrying exactly the unknown
events. -/
theorem claim_C3 :
    (∀ (supportedEvents : List String) (excludeInput : String),
      (∀ e ∈ parseExcludedSupportedEvents excludeInput, supportedEvents.contains e) →
      applyExcludedSupportedEvents supportedEvents excludeInput =
        .ok (supportedEvents.filter
          (fun e => ¬(parseExcludedSupportedEvents excludeInput).contains e))) ∧
    (∀ (supportedEvents : List String) (excludeInput : String) (unknown : List String),
      applyExcludedSupportedEvents supportedEvents excludeInput = .error unknown →
      unknown = (parseExcludedSupportedEvents excludeInput).filter
          (fun e => ¬supportedEvents.contains e) ∧ unknown ≠ []) ∧
    applyExcludedSupportedEvents ["e1.a", "e2.b", "e3.c"] "e2.b" = .ok ["e1.a", "e3.c"] ∧
    applyExcludedSupportedEvents ["e1.a"] "zz.q , e1.a , yy.r" = .error ["zz.q", "yy.r"] ∧
    parseExcludedSupportedEvents " a.b , c.d , a.b ,, " = ["a.b", "c.d"] := by
  refine ⟨?_, ?_, rfl, rfl, rfl⟩
  · intro supportedEvents excludeInput hall
    rw [applyExcludedSupportedEvents]
    have hempty : ((parseExcludedSupportedEvents excludeInput).filter
        (fun e => ¬supportedEvents.contains e)) = [] := by
      rw [List.filter_eq_nil_iff]
      intro a ha
      simp only [decide_not, Bool.not_eq_true', decide_eq_false_iff_not, Decidable.not_not]
      exact hall a ha
    rw [hempty]
    simp
  · intro supportedEvents excludeInput unknown h
    rw [applyExcludedSupportedEvents] at h
    split at h
    · rename_i hne
      have heq := (Except.error.injEq _ _).mp h
      subst heq
      refine ⟨rfl, fun hnil => hne ?_⟩
      rw [hnil]
      rfl
    · exact Except.noConfusion h

theorem claim_C3_witness :
    applyExcludedSupportedEvents ["a.b", "c.d"] "" = .ok ["a.b", "c.d"] ∧
    (["zz.q"] : List String) ≠ [] :=
  ⟨by
    have := claim_C3.1 ["a.b", "c.d"] "" (by decide)
    simpa using this,
    (claim_C3.2.1 ["a.b"] "zz.q" ["zz.q"] rfl).2⟩

theorem rse_ok_nonempty : ∀ (fuel : Nat) (modules : List SourceModule)
    (typeExpression filePath : String) (seen : List ResolutionKey) (evs : List String),
    (resolveSupportedEventsFromTypeExpression modules fuel typeExpression filePath seen).2 =
      .ok evs → ¬evs.isEmpty := by
  intro fuel
  induction fuel with
  | zero =>
    intro modules ty file seen evs h
    rw [resolveSupportedEventsFromTypeExpression] at h
    exact Except.noConfusion h
  | succ fuel ih =>
    intro modules ty file seen evs h
    rw [resolveSupportedEventsFromTypeExpression] at h
    split at h
    · rename_i hne
      rw [← (Except.ok.injEq _ _).mp h]
      exact hne
    · split at h
      · split at h
        · exact Except.noConfusion h
        · exact ih _ _ _ _ _ h
      · exact Except.noConfusion h

/-- C2: a successful resolution returns the extracted string literals of the
resolved type expression in declaration order with duplicates removed
keeping first occurrences (`extractStringLiterals` is the de-duplication of
the regex scan: a `Nodup` sublist with the same members), and the result of
a successful run is never empty; an extraction-free non-identifier
expression is a fatal error. -/
theorem claim_C2 :
    (∀ (input : String),
      extractStringLiterals input =
        dedupFirst (extractLiteralsLoop (input.data.length + 1) input.data)) ∧
    (∀ (input : String), (extractStringLiterals input).Nodup) ∧
    (∀ (input : String), (extractStringLiterals input).Sublist
      (extractLiteralsLoop (input.data.length + 1) input.data)) ∧
    (∀ (input : String) (x : String),
      x ∈ extractStringLiterals input ↔
        x ∈ extractLiteralsLoop (input.data.length + 1) input.data) ∧
    (∀ (modules : List SourceModule) (fuel : Nat) (typeExpression filePath : String)
      (seen : List ResolutionKey),
      ¬(extractStringLiterals (stripOuterParens typeExpression)).isEmpty →
      resolveSupportedEventsFromTypeExpression modules (fuel + 1) typeExpression filePath seen =
        (seen, .ok (extractStringLiterals (stripOuterParens typeExpression)))) ∧
    (∀ (modules : List SourceModule) (fuel : Nat) (typeExpression filePath : String)
      (seen : List ResolutionKey) (evs : List String),
      (resolveSupportedEventsFromTypeExpression modules fuel typeExpression filePath
        seen).2 = .ok evs → ¬evs.isEmpty) ∧
    (∀ (modules : List SourceModule) (fuel : Nat) (typeExpression filePath : String)
      (seen : List ResolutionKey),
      (extractStringLiterals (stripOuterParens typeExpression)).isEmpty →
      ¬isIdentifier (stripOuterParens typeExpression).data →
      resolveSupportedEventsFromTypeExpression modules (fuel + 1) typeExpression filePath
        seen = (seen, .error (.unsupportedExpression typeExpression))) ∧
    extractStringLiterals "\"a\" | \x27b\x27 | \"a\"" = ["a", "b"] ∧
    resolveSupportedEventsRun [mainModule, eventsModule] "SupportedEvents" "src/main.ts" =
      .ok ["issues.opened", "issue_comment.created"] ∧
    resolveSupportedEventsRun [] "(\"x.y\" | \"x.y\")" "src/main.ts" = .ok ["x.y"] := by
  refine ⟨fun _ => rfl, ?_, ?_, ?_, ?_, fun m f ty fp s e h => rse_ok_nonempty f m ty fp s e h,
    ?_, rfl, rfl, rfl⟩
  · intro input
    exact dedupFirst_nodup _
  · intro input
    exact dedupFirst_sublist _
  · intro input x
    exact dedupFirst_mem _ _
  · intro modules fuel ty file seen hne
    rw [resolveSupportedEventsFromTypeExpression, if_pos hne]
  · intro modules fuel ty file seen hempty hnid
    rw [resolveSupportedEventsFromTypeExpression, if_neg (by simp [hempty]),
      if_neg (by simp [hnid])]

theorem claim_C2_witness :
    resolveSupportedEventsFromTypeExpression [] 3 "\"a.b\"" "f.ts" [] =
        ([], .ok ["a.b"]) ∧
    resolveSupportedEventsFromTypeExpression [] 3 "number[]" "f.ts" [] =
        ([], .error (.unsupportedExpression "number[]")) ∧
    ¬(["a.b"] : List String).isEmpty :=
  ⟨claim_C2.2.2.2.2.1 [] 2 "\"a.b\"" "f.ts" [] (by decide),
    claim_C2.2.2.2.2.2.2.1 [] 2 "number[]" "f.ts" [] (by decide) (by decide),
    claim_C2.2.2.2.2.2.1 [] 3 "\"a.b\"" "f.ts" [] ["a.b"] rfl⟩

theorem spreadsOnly_no_properties : ∀ (entries : List String)
    (props : List (String × String)) (spreadAcc : List String),
    (∀ e ∈ entries, startsWithSpread e.data) →
    (entries.foldl parseObjectEntry (props, spreadAcc)).1 = props := by
  intro entries
  induction entries with
  | nil => intro props spreadAcc hall; rfl
  | cons e rest ih =>
    intro props spreadAcc hall
    rw [List.foldl_cons]
    rw [show parseObjectEntry (props, spreadAcc) e =
      (props, spreadAcc ++ [strTrim ⟨e.data.drop 3⟩]) from by
        rw [parseObjectEntry, if_pos (hall e (List.mem_cons_self e rest))]]
    exact ih _ _ (fun x hx => hall x (List.mem_cons_of_mem e hx))

/-- C7. -/
theorem claim_C7 :
    (∀ (optionsExpression : String) (options : ParsedObjectLiteral),
      checkOptionsHasSettingsSchema optionsExpression = .ok options ↔
        (parseObjectLiteral optionsExpression = some options ∧
          (lookupStr options.properties "settingsSchema").isSome)) ∧
    (∀ (optionsExpression : String),
      parseObjectLiteral optionsExpression = none →
      checkOptionsHasSettingsSchema optionsExpression = .error .optionsParseFailed) ∧
    (∀ (entries : List String) (props : List (String × String)) (spreadAcc : List String),
      (∀ e ∈ entries, startsWithSpread e.data) →
      (entries.foldl parseObjectEntry (props, spreadAcc)).1 = props) ∧
    parseObjectLiteral "({ ...options })" = some ⟨"{ ...options }", [], ["options"]⟩ ∧
    checkOptionsHasSettingsSchema "({ ...options })" = .error .missingSettingsSchema ∧
    checkOptionsHasSettingsSchema "({ settingsSchema: schema, env })" =
      .ok ⟨"{ settingsSchema: schema, env }",
        [("settingsSchema", "schema"), ("env", "env")], []⟩ ∧
    checkOptionsHasSettingsSchema "({ settingsSchema })" =
      .ok ⟨"{ settingsSchema }", [("settingsSchema", "settingsSchema")], []⟩ ∧
    checkOptionsHasSettingsSchema "createPlugin(x)" = .error .optionsParseFailed := by
  refine ⟨?_, ?_, spreadsOnly_no_properties, rfl, rfl, rfl, rfl, rfl⟩
  · intro optionsExpression options
    rw [checkOptionsHasSettingsSchema]
    cases hp : parseObjectLiteral optionsExpression with
    | none =>
      constructor
      · intro h; exact Except.noConfusion h
      · rintro ⟨h1, _⟩; exact Option.noConfusion h1
    | some o =>
      simp only
      split
      · rename_i hs
        constructor
        · intro h
          have ho : o = options := (Except.ok.injEq _ _).mp h
          subst ho
          exact ⟨rfl, hs⟩
        · rintro ⟨h1, _⟩
          rw [Option.some_inj.mp h1]
      · rename_i hs
        constructor
        · intro h; exact Except.noConfusion h
        · rintro ⟨h1, h2⟩
          rw [← Option.some_inj.mp h1] at h2
          exact absurd h2 hs
  · intro optionsExpression hp
    rw [checkOptionsHasSettingsSchema, hp]

theorem claim_C7_witness :
    checkOptionsHasSettingsSchema "({ settingsSchema: s })" =
        .ok ⟨"{ settingsSchema: s }", [("settingsSchema", "s")], []⟩ ∧
    (([ "...options" ] : List String).foldl parseObjectEntry ([], [])).1 = [] :=
  ⟨(claim_C7.1 "({ settingsSchema: s })"
      ⟨"{ settingsSchema: s }", [("settingsSchema", "s")], []⟩).mpr ⟨rfl, rfl⟩,
    claim_C7.2.2.1 ["...options"] [] [] (by decide)⟩

theorem findModule_mem (modules : List SourceModule) (p : String) (m : SourceModule)
    (h : findModule modules p = some m) : m ∈ modules ∧ m.path = p := by
  unfold findModule at h
  refine ⟨List.mem_of_find?_eq_some h, ?_⟩
  have := List.find?_some h
  simpa using this

theorem resolveModulePath_mem (modules : List SourceModule) (spec p : String)
    (h : resolveModulePath modules spec = some p) : p ∈ modulePaths modules := by
  unfold resolveModulePath at h
  cases hf : findModule modules spec with
  | none => rw [hf] at h; exact Option.noConfusion h
  | some m =>
    rw [hf] at h
    obtain ⟨hm, _⟩ := findModule_mem _ _ _ hf
    rw [← Option.some_inj.mp h]
    exact List.mem_map_of_mem _ hm

theorem pairProd_mem : ∀ (as bs : List String) (a b : String),
    a ∈ as → b ∈ bs → (a, b) ∈ pairProd as bs := by
  intro as
  induction as with
  | nil => intro bs a b ha _; simp at ha
  | cons x rest ih =>
    intro bs a b ha hb
    rw [pairProd]
    rcases List.mem_cons.mp ha with ha | ha
    · subst ha
      exact List.mem_append_left _ (List.mem_map_of_mem _ hb)
    · exact List.mem_append_right _ (ih bs a b ha hb)

theorem mem_nameUniverse_of_alias (modules : List SourceModule) (extraN : List String)
    (m : SourceModule) (a e : String) (hm : m ∈ modules) (ha : (a, e) ∈ m.typeAliases) :
    stripOuterParens e ∈ nameUniverse modules extraN := by
  unfold nameUniverse
  refine List.mem_append_right _ (List.mem_flatMap.mpr ⟨m, hm, ?_⟩)
  unfold moduleNames
  exact List.mem_append_right _ (List.mem_map_of_mem _ ha)

theorem mem_nameUniverse_of_import (modules : List SourceModule) (extraN : List String)
    (m : SourceModule) (k : String) (b : ImportBinding) (hm : m ∈ modules)
    (hb : (k, b) ∈ m.namedImports) : b.importedName ∈ nameUniverse modules extraN := by
  unfold nameUniverse
  refine List.mem_append_right _ (List.mem_flatMap.mpr ⟨m, hm, ?_⟩)
  unfold moduleNames
  exact List.mem_append_left _ (List.mem_append_left _ (List.mem_append_right _
    (List.mem_map_of_mem _ hb)))

theorem mem_nameUniverse_of_reexport (modules : List SourceModule) (extraN : List String)
    (m : SourceModule) (k : String) (b : ImportBinding) (hm : m ∈ modules)
    (hb : (k, b) ∈ m.namedReexports) : b.importedName ∈ nameUniverse modules extraN := by
  unfold nameUniverse
  refine List.mem_append_right _ (List.mem_flatMap.mpr ⟨m, hm, ?_⟩)
  unfold moduleNames
  exact List.mem_append_left _ (List.mem_append_right _ (List.mem_map_of_mem _ hb))

theorem stars_le_total (modules : List SourceModule) (m : SourceModule) (hm : m ∈ modules) :
    m.starReexports.length ≤ totalStars modules := by
  unfold totalStars
  exact List.single_le_sum (fun x _ => Nat.zero_le x) _ (List.mem_map_of_mem _ hm)

theorem seenInv_length_le (modules : List SourceModule) (eP eN : List String)
    (seen : List ResolutionKey) (h : seenInv modules eP eN seen) :
    seen.length ≤ (keyUniverse modules eP eN).length :=
  (h.2.subperm h.1).length_le

theorem starBudget_mono (modules : List SourceModule) (eP eN : List String) (s t : Nat)
    (h : s ≤ t) : starBudget modules eP eN t ≤ starBudget modules eP eN s := by
  unfold starBudget
  exact Nat.mul_le_mul_left _ (Nat.sub_le_sub_left h _)

theorem starBudget_step (modules : List SourceModule) (eP eN : List String) (s t : Nat)
    (hst : s < t) (ht : t ≤ (keyUniverse modules eP eN).length) :
    starBudget modules eP eN t + (totalStars modules + 2) ≤ starBudget modules eP eN s := by
  unfold starBudget
  have h1 : (keyUniverse modules eP eN).length - t + 1 ≤
      (keyUniverse modules eP eN).length - s := by omega
  calc (totalStars modules + 2) * ((keyUniverse modules eP eN).length - t) +
        (totalStars modules + 2)
      = (totalStars modules + 2) * ((keyUniverse modules eP eN).length - t + 1) := by ring
    _ ≤ (totalStars modules + 2) * ((keyUniverse modules eP eN).length - s) :=
        Nat.mul_le_mul_left _ h1

theorem rtaPost_weaken (modules : List SourceModule) (eP eN : List String)
    (seen seen2 : List ResolutionKey)
    (r : List ResolutionKey × Except ResolveError (String × String))
    (h : rtaPost modules eP eN seen2 r) (hle : seen.length ≤ seen2.length) :
    rtaPost modules eP eN seen r := by
  obtain ⟨h1, h2, h3⟩ := h
  refine ⟨h1, by omega, ?_⟩
  cases hr : r.2 with
  | error e => rw [hr] at h3; exact h3
  | ok pr =>
    rw [hr] at h3
    obtain ⟨p1, p2, p3⟩ := h3
    exact ⟨p1, p2, by omega⟩

theorem rta_post (modules : List SourceModule) (eP eN : List String) : ∀ fuel : Nat,
    (∀ (aliasName filePath : String) (seen : List ResolutionKey),
      aliasName ∈ nameUniverse modules eN →
      filePath ∈ eP ++ modulePaths modules →
      seenInv modules eP eN seen →
      starBudget modules eP eN seen.length + 1 ≤ fuel →
      rtaPost modules eP eN seen (resolveTypeAlias modules fuel aliasName filePath seen)) ∧
    (∀ (aliasName : String) (specs : List String) (seen : List ResolutionKey),
      aliasName ∈ nameUniverse modules eN →
      seenInv modules eP eN seen →
      starBudget modules eP eN seen.length + specs.length + 1 ≤ fuel →
      rtaPost modules eP eN seen
        (resolveStarReexports modules fuel aliasName specs seen)) := by
  intro fuel
  induction fuel with
  | zero =>
    constructor
    · intro a f seen _ _ _ hbud; omega
    · intro a specs seen _ _ hbud; omega
  | succ fuel ih =>
    obtain ⟨ihR, ihS⟩ := ih
    constructor
    · intro a f seen hname hfile hinv hbud
      rw [resolveTypeAlias]
      split
      · exact ⟨hinv, le_refl _, fun hc => ResolveError.noConfusion hc⟩
      · rename_i hnmem
        have hkey : (f, a) ∈ keyUniverse modules eP eN := pairProd_mem _ _ _ _ hfile hname
        have hinv1 : seenInv modules eP eN ((f, a) :: seen) := by
          refine ⟨?_, List.nodup_cons.mpr ⟨hnmem, hinv.2⟩⟩
          intro k hk
          rcases List.mem_cons.mp hk with hk | hk
          · rw [hk]; exact hkey
          · exact hinv.1 k hk
        have hlen1 : ((f, a) :: seen).length ≤ (keyUniverse modules eP eN).length :=
          seenInv_length_le _ _ _ _ hinv1
        have hstep : starBudget modules eP eN (seen.length + 1) + (totalStars modules + 2) ≤
            starBudget modules eP eN seen.length :=
          starBudget_step _ _ _ _ _ (by omega) (by simpa using hlen1)
        dsimp only
        cases hfm : findModule modules f with
        | none =>
          dsimp only
          exact ⟨hinv1, by simp, fun hc => ResolveError.noConfusion hc⟩
        | some m =>
          dsimp only
          obtain ⟨hmmem, hmpath⟩ := findModule_mem _ _ _ hfm
          cases hta : lookupStr m.typeAliases a with
          | some expression =>
            dsimp only
            refine ⟨hinv1, by simp, ?_, ?_, by simp⟩
            · exact mem_nameUniverse_of_alias _ _ _ _ _ hmmem (lookupStr_mem _ _ _ hta)
            · rw [← hmpath]
              exact List.mem_map_of_mem _ hmmem
          | none =>
            dsimp only
            cases him : lookupStr m.namedImports a with
            | some imp =>
              dsimp only
              cases hrp : resolveModulePath modules imp.source with
              | none =>
                dsimp only
                exact ⟨hinv1, by simp, fun hc => ResolveError.noConfusion hc⟩
              | some p =>
                dsimp only
                refine rtaPost_weaken _ _ _ _ _ _
                  (ihR imp.importedName p ((f, a) :: seen)
                    (mem_nameUniverse_of_import _ _ _ _ _ hmmem (lookupStr_mem _ _ _ him))
                    (List.mem_append_right _ (resolveModulePath_mem _ _ _ hrp))
                    hinv1 (by simp only [List.length_cons]; omega))
                  (by simp)
            | none =>
              dsimp only
              cases hrx : lookupStr m.namedReexports a with
              | some rex =>
                dsimp only
                cases hrp : resolveModulePath modules rex.source with
                | none =>
                  dsimp only
                  exact ⟨hinv1, by simp, fun hc => ResolveError.noConfusion hc⟩
                | some p =>
                  dsimp only
                  refine rtaPost_weaken _ _ _ _ _ _
                    (ihR rex.importedName p ((f, a) :: seen)
                      (mem_nameUniverse_of_reexport _ _ _ _ _ hmmem (lookupStr_mem _ _ _ hrx))
                      (List.mem_append_right _ (resolveModulePath_mem _ _ _ hrp))
                      hinv1 (by simp only [List.length_cons]; omega))
                    (by simp)
              | none =>
                dsimp only
                have hst := stars_le_total modules m hmmem
                refine rtaPost_weaken _ _ _ _ _ _
                  (ihS a m.starReexports ((f, a) :: seen) hname hinv1
                    (by simp only [List.length_cons]; omega))
                  (by simp)
    · intro a specs seen hname hinv hbud
      cases specs with
      | nil =>
        rw [resolveStarReexports]
        exact ⟨hinv, le_refl _, fun hc => ResolveError.noConfusion hc⟩
      | cons spec rest =>
        rw [resolveStarReexports]
        cases hrp : resolveModulePath modules spec with
        | none =>
          dsimp only
          exact ihS a rest seen hname hinv (by simp only [List.length_cons] at hbud; omega)
        | some p =>
          dsimp only
          have hra := ihR a p seen hname
            (List.mem_append_right _ (resolveModulePath_mem _ _ _ hrp)) hinv
            (by simp only [List.length_cons] at hbud; omega)
          cases hres : resolveTypeAlias modules fuel a p seen with
          | mk seen2 res =>
            rw [hres] at hra
            cases res with
            | ok r => dsimp only; exact hra
            | error e =>
              obtain ⟨g1, g2, g3⟩ := hra
              have hmono := starBudget_mono modules eP eN seen.length seen2.length g2
              cases e with
              | outOfFuel => exact absurd rfl g3
              | ambiguousEntrypoint fn =>
                exact rtaPost_weaken _ _ _ _ _ _
                  (ihS a rest seen2 hname g1
                    (by simp only [List.length_cons] at hbud; omega)) g2
              | noEntrypoint =>
                exact rtaPost_weaken _ _ _ _ _ _
                  (ihS a rest seen2 hname g1
                    (by simp only [List.length_cons] at hbud; omega)) g2
              | cycleDetected an =>
                exact rtaPost_weaken _ _ _ _ _ _
                  (ihS a rest seen2 hname g1
                    (by simp only [List.length_cons] at hbud; omega)) g2
              | moduleNotFound wp =>
                exact rtaPost_weaken _ _ _ _ _ _
                  (ihS a rest seen2 hname g1
                    (by simp only [List.length_cons] at hbud; omega)) g2
              | unresolvedAlias an =>
                exact rtaPost_weaken _ _ _ _ _ _
                  (ihS a rest seen2 hname g1
                    (by simp only [List.length_cons] at hbud; omega)) g2
              | unsupportedExpression te =>
                exact rtaPost_weaken _ _ _ _ _ _
                  (ihS a rest seen2 hname g1
                    (by simp only [List.length_cons] at hbud; omega)) g2
              | optionsParseFailed =>
                exact rtaPost_weaken _ _ _ _ _ _
                  (ihS a rest seen2 hname g1
                    (by simp only [List.length_cons] at hbud; omega)) g2
              | missingSettingsSchema =>
                exact rtaPost_weaken _ _ _ _ _ _
                  (ihS a rest seen2 hname g1
                    (by simp only [List.length_cons] at hbud; omega)) g2

theorem resolveTypeAliasRun_no_fuel_out (modules : List SourceModule)
    (aliasName filePath : String) :
    (resolveTypeAliasRun modules aliasName filePath).2 ≠ .error .outOfFuel := by
  have hpost := (rta_post modules [filePath] [aliasName]
    (resolutionFuel modules [filePath] [aliasName])).1 aliasName filePath []
    (List.mem_append_left _ (List.mem_singleton.mpr rfl))
    (List.mem_append_left _ (List.mem_singleton.mpr rfl))
    ⟨fun k hk => absurd hk (List.not_mem_nil k), List.nodup_nil⟩
    (by rw [resolutionFuel]; simp)
  obtain ⟨_, _, h3⟩ := hpost
  rw [resolveTypeAliasRun]
  cases hr : (resolveTypeAlias modules (resolutionFuel modules [filePath] [aliasName])
      aliasName filePath []).2 with
  | error e =>
    rw [hr] at h3
    intro hc
    exact h3 ((Except.error.injEq _ _).mp hc)
  | ok pr => exact fun hc => Except.noConfusion hc

/-- C4: `resolveTypeAlias` threads the visited set of `(file, alias)` keys
through every recursive call — named imports, named re-exports, and star
re-exports, whose failed attempts keep their additions — and revisiting a
key is an immediate cycle-detected error; at the proved fuel budget the
resolution of any alias over any finite module list terminates (fuel
exhaustion is unreachable), in particular `type A = B; type B = A` resolves
to a cycle error. -/
theorem claim_C4 :
    (∀ (modules : List SourceModule) (fuel : Nat) (aliasName filePath : String)
      (seen : List ResolutionKey),
      (filePath, aliasName) ∈ seen →
      resolveTypeAlias modules fuel aliasName filePath seen =
        (seen, .error (.cycleDetected aliasName))) ∧
    (∀ (modules : List SourceModule) (aliasName filePath : String),
      (resolveTypeAliasRun modules aliasName filePath).2 ≠ .error .outOfFuel) ∧
    resolveSupportedEventsRun [cyclicAliasModule] "A" "src/types.ts" =
      .error (.cycleDetected "A") ∧
    (resolveTypeAliasRun importCycleModules "A" "src/a.ts").2 =
      .error (.cycleDetected "A") ∧
    (resolveTypeAliasRun starHubModules "E" "src/hub.ts").2 = .ok ("\"a.b\"", "src/live.ts") ∧
    (resolveTypeAliasRun starHubModules "E" "src/hub.ts").1 =
      [("src/live.ts", "E"), ("src/dead.ts", "E"), ("src/hub.ts", "E")] := by
  refine ⟨?_, resolveTypeAliasRun_no_fuel_out, rfl, rfl, rfl, rfl⟩
  intro modules fuel aliasName filePath seen hmem
  rw [resolveTypeAlias, if_pos hmem]

theorem claim_C4_witness :
    resolveTypeAlias [] 5 "A" "f.ts" [("f.ts", "A")] =
      ([("f.ts", "A")], .error (.cycleDetected "A")) :=
  claim_C4.1 [] 5 "A" "f.ts" [("f.ts", "A")] (List.mem_singleton.mpr rfl)

theorem lookupStr_setAssoc_self {α : Type} : ∀ (l : List (String × α)) (k : String) (v : α),
    lookupStr (setAssoc l k v) k = some v := by
  intro l
  induction l with
  | nil => intro k v; simp [setAssoc, lookupStr]
  | cons kv rest ih =>
    intro k v
    obtain ⟨k', v'⟩ := kv
    rw [setAssoc]
    split
    · rw [lookupStr, if_pos rfl]
    · rename_i hne
      rw [lookupStr, if_neg hne]
      exact ih k v

theorem lookupStr_setAssoc_ne {α : Type} : ∀ (l : List (String × α)) (k : String) (v : α)
    (k2 : String), k ≠ k2 → lookupStr (setAssoc l k v) k2 = lookupStr l k2 := by
  intro l
  induction l with
  | nil =>
    intro k v k2 hne
    simp [setAssoc, lookupStr, hne]
  | cons kv rest ih =>
    intro k v k2 hne
    obtain ⟨k', v'⟩ := kv
    rw [setAssoc]
    split
    · rename_i heq
      rw [lookupStr, if_neg hne, lookupStr, if_neg (heq ▸ hne)]
    · rw [lookupStr, lookupStr]
      split
      · rfl
      · exact ih k v k2 hne

theorem lookupStr_append_some {α : Type} : ∀ (l1 l2 : List (String × α)) (k : String)
    (v : α), lookupStr l1 k = some v → lookupStr (l1 ++ l2) k = some v := by
  intro l1
  induction l1 with
  | nil => intro l2 k v h; exact Option.noConfusion h
  | cons kv rest ih =>
    intro l2 k v h
    rw [lookupStr] at h
    rw [List.cons_append, lookupStr]
    split at h
    · rename_i heq
      rw [if_pos heq]
      exact h
    · rename_i hne
      rw [if_neg hne]
      exact ih l2 k v h

theorem lookupStr_append_none {α : Type} : ∀ (l1 l2 : List (String × α)) (k : String),
    lookupStr l1 k = none → lookupStr (l1 ++ l2) k = lookupStr l2 k := by
  intro l1
  induction l1 with
  | nil => intro l2 k _; rfl
  | cons kv rest ih =>
    intro l2 k h
    rw [lookupStr] at h
    rw [List.cons_append, lookupStr]
    split at h
    · exact Option.noConfusion h
    · rename_i hne
      rw [if_neg hne]
      exact ih l2 k h

theorem lookupStr_section_none (order : List String) (m : List (String × Json)) (k : String)
    (h : lookupStr m k = none) :
    lookupStr (order.filterMap (fun k2 => (lookupStr m k2).map (fun v => (k2, v)))) k =
      none := by
  induction order with
  | nil => rfl
  | cons o rest ih =>
    rw [List.filterMap_cons]
    cases ho : lookupStr m o with
    | none => simpa using ih
    | some v =>
      simp only [Option.map_some']
      rw [lookupStr]
      split
      · rename_i heq
        rw [heq] at ho
        rw [ho] at h
        exact Option.noConfusion h
      · exact ih

theorem lookupStr_section_some (order : List String) (m : List (String × Json))
    (k : String) (v : Json) (h : lookupStr m k = some v) (hmem : k ∈ order) :
    lookupStr (order.filterMap (fun k2 => (lookupStr m k2).map (fun v => (k2, v)))) k =
      some v := by
  induction order with
  | nil => simp at hmem
  | cons o rest ih =>
    rw [List.filterMap_cons]
    by_cases heq : o = k
    · subst heq
      rw [h]
      simp only [Option.map_some']
      rw [lookupStr, if_pos rfl]
    · cases ho : lookupStr m o with
      | none =>
        simp only [Option.map_none']
        exact ih (List.mem_of_ne_of_mem (fun hk => heq hk.symm) hmem)
      | some v2 =>
        simp only [Option.map_some']
        rw [lookupStr, if_neg heq]
        exact ih (List.mem_of_ne_of_mem (fun hk => heq hk.symm) hmem)

theorem lookupStr_section_not_mem (order : List String) (m : List (String × Json))
    (k : String) (hmem : k ∉ order) :
    lookupStr (order.filterMap (fun k2 => (lookupStr m k2).map (fun v => (k2, v)))) k =
      none := by
  induction order with
  | nil => rfl
  | cons o rest ih =>
    have ho : o ≠ k := fun h => hmem (h ▸ List.mem_cons_self o rest)
    rw [List.filterMap_cons]
    cases hl : lookupStr m o with
    | none =>
      simpa using ih (fun h => hmem (List.mem_cons_of_mem o h))
    | some v =>
      simp only [Option.map_some']
      rw [lookupStr, if_neg ho]
      exact ih (fun h => hmem (List.mem_cons_of_mem o h))

theorem lookupStr_filter_none (m : List (String × Json)) (p : String × Json → Bool)
    (k : String) (h : lookupStr m k = none) : lookupStr (m.filter p) k = none := by
  induction m with
  | nil => rfl
  | cons kv rest ih =>
    obtain ⟨k', v'⟩ := kv
    rw [lookupStr] at h
    split at h
    · exact Option.noConfusion h
    · rename_i hne
      rw [List.filter_cons]
      split
      · rw [lookupStr, if_neg hne]
        exact ih h
      · exact ih h

theorem lookupStr_filter_true (m : List (String × Json)) (p : String × Json → Bool)
    (k : String) (hp : ∀ v, p (k, v) = true) : lookupStr (m.filter p) k = lookupStr m k := by
  induction m with
  | nil => rfl
  | cons kv rest ih =>
    obtain ⟨k', v'⟩ := kv
    rw [lookupStr]
    split
    · rename_i heq
      subst heq
      rw [List.filter_cons, if_pos (by simp [hp v'])]
      rw [lookupStr, if_pos rfl]
    · rename_i hne
      rw [List.filter_cons]
      split
      · rw [lookupStr, if_neg hne]
        exact ih
      · exact ih

theorem lookupStr_orderManifestFields (m : List (String × Json)) (k : String) :
    lookupStr (orderManifestFields m) k = lookupStr m k := by
  unfold orderManifestFields
  by_cases hmem : k ∈ manifestFieldOrder
  · cases hl : lookupStr m k with
    | some v =>
      exact lookupStr_append_some _ _ _ _ (lookupStr_section_some _ _ _ _ hl hmem)
    | none =>
      rw [lookupStr_append_none _ _ _ (lookupStr_section_none _ _ _ hl)]
      exact lookupStr_filter_none _ _ _ hl
  · rw [lookupStr_append_none _ _ _ (lookupStr_section_not_mem _ _ _ hmem)]
    refine lookupStr_filter_true _ _ _ ?_
    intro v
    simpa using hmem

theorem applyListenersField_preserves (m : List (String × Json)) (se : Option Json)
    (k : String) (hk : "ubiquity:listeners" ≠ k) :
    lookupStr (applyListenersField m se).1 k = lookupStr m k := by
  rw [applyListenersField.eq_def]
  cases se with
  | none => rfl
  | some ev =>
    dsimp only
    cases hv : validateListeners ev with
    | some e => rfl
    | none => exact lookupStr_setAssoc_ne _ _ _ _ hk

theorem applyConfigurationField_preserves (m : List (String × Json))
    (ps : Option Json) (k : String) (hk : "configuration" ≠ k) :
    lookupStr (applyConfigurationField m ps).1 k = lookupStr m k := by
  rw [applyConfigurationField.eq_def]
  cases ps with
  | none => rfl
  | some s =>
    dsimp only
    split
    · exact lookupStr_setAssoc_ne _ _ _ _ hk
    · rfl

/-- C5: the revival pass rewrites every node carrying a `properties` object
and a `required` array by deleting from the de-duplicated required set each
name whose property declares a `default`, dropping the key when the set
empties — `{properties: \x7ba: \x7bdefault\x7d, b: \x7b\x7d\x7d, required: [a, b]\x7d`
revives to `required: [b]`, an all-defaulted node loses the key, and the
rewrite reaches nested nodes — and `buildManifest` applies it only to the
`configuration` field while a valid command schema is stored verbatim. -/
theorem claim_C5 :
    (∀ (fields : List (String × Json)) (props : List (String × Json)) (req : List Json),
      lookupStr fields "properties" = some (.obj props) →
      lookupStr fields "required" = some (.arr req) →
      customReviver (.obj fields) =
        (if ((dedupJsonFirst req).filter
            (fun r => match r with
              | .str name => ¬propHasDefault props name
              | _ => true)).isEmpty then
          Json.obj (removeField fields "required")
        else
          Json.obj (setAssoc fields "required"
            (.arr ((dedupJsonFirst req).filter
              (fun r => match r with
                | .str name => ¬propHasDefault props name
                | _ => true)))))) ∧
    reviveSchema revivalSampleSchema =
      .obj [("properties", .obj [("a", .obj [("default", .num 1)]), ("b", .obj [])]),
        ("required", .arr [.str "b"])] ∧
    reviveSchema allDefaultedSchema =
      .obj [("properties", .obj [("a", .obj [("default", .num 1)])])] ∧
    reviveSchema nestedRevivalSchema =
      .obj [("type", .str "object"),
        ("properties", .obj [("inner",
          .obj [("properties", .obj [("a", .obj [("default", .num 1)]), ("b", .obj [])]),
            ("required", .arr [.str "b"])])]),
        ("required", .arr [.str "inner"])] ∧
    (∀ (existing : List (String × Json)) (pluginModule : PluginModuleValues)
      (packageJson : Option (List (String × Json))) (repoInfo : RepoInfo)
      (options : BuildOptions) (schema : Json),
      pluginModule.pluginSettingsSchema = some schema → jsonTruthy schema →
      lookupStr (buildManifest existing pluginModule packageJson repoInfo options).1
        "configuration" = some (reviveSchema schema)) ∧
    (∀ (existing : List (String × Json)) (pluginModule : PluginModuleValues)
      (packageJson : Option (List (String × Json))) (repoInfo : RepoInfo)
      (options : BuildOptions) (cs : Json),
      pluginModule.commandSchema = some cs → validateCommands cs = none →
      lookupStr (buildManifest existing pluginModule packageJson repoInfo options).1
        "commands" = some cs) := by
  refine ⟨?_, ?_, ?_, ?_, ?_, ?_⟩
  · intro fields props req hp hr
    rw [customReviver, hp, hr]
    try rfl
  · simp only [revivalSampleSchema, reviveSchema.eq_def, List.attach, List.attachWith,
      List.map]
    rfl
  · simp only [allDefaultedSchema, reviveSchema.eq_def, List.attach, List.attachWith,
      List.map]
    rfl
  · simp only [nestedRevivalSchema, revivalSampleSchema, reviveSchema.eq_def, List.attach,
      List.attachWith, List.map]
    rfl
  · intro existing pluginModule packageJson repoInfo options schema hs ht
    rw [buildManifest]
    dsimp only
    rw [lookupStr_orderManifestFields]
    rw [hs, applyConfigurationField.eq_def]
    dsimp only
    rw [if_pos ht]
    exact lookupStr_setAssoc_self _ _ _
  · intro existing pluginModule packageJson repoInfo options cs hcs hvalid
    rw [buildManifest]
    dsimp only
    rw [lookupStr_orderManifestFields]
    rw [applyConfigurationField_preserves _ _ _ (by decide)]
    rw [lookupStr_setAssoc_ne _ _ _ _ (by decide)]
    rw [applyListenersField_preserves _ _ _ (by decide)]
    rw [hcs]
    cases cs with
    | obj fs =>
      rw [applyCommandsField.eq_def]
      dsimp only
      rw [hvalid]
      exact lookupStr_setAssoc_self _ _ _
    | null => exact Option.noConfusion hvalid
    | bool b => exact Option.noConfusion hvalid
    | num n => exact Option.noConfusion hvalid
    | str s => exact Option.noConfusion hvalid
    | arr a => exact Option.noConfusion hvalid

theorem claim_C5_witness :
    customReviver (.obj [("properties", .obj [("a", .obj [("default", .num 1)]),
        ("b", .obj [])]), ("required", .arr [.str "a", .str "b", .str "a"])]) =
      .obj [("properties", .obj [("a", .obj [("default", .num 1)]), ("b", .obj [])]),
        ("required", .arr [.str "b"])] ∧
    lookupStr (buildManifest [] ⟨some revivalSampleSchema, some (.obj [("go",
        .obj [("description", .str "d"), ("ubiquity:example", .str "/go")])])⟩ none
      sampleRepo (sampleOptionsWith none)).1 "commands" =
      some (.obj [("go", .obj [("description", .str "d"),
        ("ubiquity:example", .str "/go")])]) := by
  constructor
  · rw [claim_C5.1
      [("properties", .obj [("a", .obj [("default", .num 1)]), ("b", .obj [])]),
        ("required", .arr [.str "a", .str "b", .str "a"])]
      [("a", .obj [("default", .num 1)]), ("b", .obj [])]
      [.str "a", .str "b", .str "a"] rfl rfl]
    rfl
  · exact claim_C5.2.2.2.2.2 [] _ none sampleRepo (sampleOptionsWith none) _ rfl rfl

theorem trim_nonempty_source (s : String) (h : (trimChars s.data).isEmpty = false) :
    s.data.isEmpty = false := by
  cases hs : s.data with
  | nil =>
    rw [hs] at h
    exact absurd h (by decide)
  | cons c rest => rfl

theorem strFieldTrimmed_nonempty (j : Json) (k : String) (s : String)
    (h : strFieldTrimmed j k = some s) : s.data.isEmpty = false := by
  unfold strFieldTrimmed at h
  cases hg : getStrField j k with
  | none => rw [hg] at h; exact Option.noConfusion h
  | some s0 =>
    rw [hg] at h
    dsimp only at h
    split at h
    · exact Option.noConfusion h
    · rename_i hne
      rw [← Option.some_inj.mp h]
      simp only [strTrim]
      simpa using hne

theorem strFieldPresent_nonempty (j : Json) (k : String) (s : String)
    (h : strFieldPresent j k = some s) : s.data.isEmpty = false := by
  unfold strFieldPresent at h
  cases hg : getStrField j k with
  | none => rw [hg] at h; exact Option.noConfusion h
  | some s0 =>
    rw [hg] at h
    dsimp only at h
    split at h
    · exact Option.noConfusion h
    · rename_i hne
      rw [← Option.some_inj.mp h]
      exact trim_nonempty_source s0 (by simpa using hne)

theorem examplesHead_nonempty (j : Json) (s : String) (h : examplesHead j = some s) :
    s.data.isEmpty = false := by
  unfold examplesHead at h
  split at h
  · rename_i s0 rest heq
    split at h
    · exact Option.noConfusion h
    · rename_i hne
      rw [← Option.some_inj.mp h]
      exact trim_nonempty_source s0 (by simpa using hne)
  · exact Option.noConfusion h

theorem enumCommandName_nonempty (j : Json) (s : String) (h : enumCommandName j = some s) :
    s.data.isEmpty = false := by
  unfold enumCommandName at h
  split at h
  · rename_i s0 heq
    split at h
    · exact Option.noConfusion h
    · rename_i hne
      rw [← Option.some_inj.mp h]
      exact trim_nonempty_source s0 (by simpa using hne)
  · exact Option.noConfusion h

theorem literalCommandName_nonempty (j : Json) (s : String)
    (h : literalCommandName j = some s) : s.data.isEmpty = false := by
  unfold literalCommandName at h
  cases hg : getStrField j "const" with
  | none =>
    rw [hg] at h
    exact enumCommandName_nonempty j s h
  | some s0 =>
    rw [hg] at h
    dsimp only at h
    split at h
    · exact enumCommandName_nonempty j s h
    · rename_i hne
      rw [← Option.some_inj.mp h]
      exact trim_nonempty_source s0 (by simpa using hne)

theorem orElse3_getD_nonempty (o1 o2 o3 : Option String) (dflt : String)
    (h1 : ∀ s, o1 = some s → s.data.isEmpty = false)
    (h2 : ∀ s, o2 = some s → s.data.isEmpty = false)
    (h3 : ∀ s, o3 = some s → s.data.isEmpty = false)
    (hd : dflt.data.isEmpty = false) :
    ((o1 <|> o2 <|> o3).getD dflt).data.isEmpty = false := by
  cases ho1 : o1 with
  | some s => simp only [ho1, Option.some_orElse, Option.getD_some]; exact h1 s ho1
  | none =>
    cases ho2 : o2 with
    | some s => simp only [ho1, ho2, Option.none_orElse, Option.some_orElse,
        Option.getD_some]; exact h2 s ho2
    | none =>
      cases ho3 : o3 with
      | some s => simp only [ho1, ho2, ho3, Option.none_orElse, Option.getD_some]
                  exact h3 s ho3
      | none => simp only [ho1, ho2, ho3, Option.none_orElse, Option.getD_none]
                exact hd

theorem validate_single_command (n d e : String) (extra : List (String × Json))
    (hd : d.data.isEmpty = false) (he : e.data.isEmpty = false) :
    validateCommands (.obj [(n, .obj ([("description", .str d),
      ("ubiquity:example", .str e)] ++ extra))]) = none := by
  simp [validateCommands, firstBadCommand, isObjectLikeJson, getStrField, lookupField,
    lookupStr, hd, he]

theorem convertVariant_ok_valid (existing v : Json) (n : String) (cmd : Json)
    (h : convertVariant existing v = .ok (n, cmd)) :
    validateCommands (.obj [(n, cmd)]) = none := by
  unfold convertVariant at h
  split at h
  · exact Except.noConfusion h
  · split at h
    · exact Except.noConfusion h
    · rename_i ns hns
      split at h
      · exact Except.noConfusion h
      · rename_i commandName hcn
        rw [Except.ok.injEq, Prod.mk.injEq] at h
        obtain ⟨hn, hcmd⟩ := h
        subst hn
        rw [← hcmd]
        have hncmd : commandName.data.isEmpty = false :=
          literalCommandName_nonempty ns commandName hcn
        have hdesc : ((strFieldTrimmed ns "description" <|>
            strFieldTrimmed v "description" <|>
            (lookupField existing commandName).bind
              (fun c => strFieldTrimmed c "description")).getD
            commandName).data.isEmpty = false := by
          refine orElse3_getD_nonempty _ _ _ _ ?_ ?_ ?_ hncmd
          · exact fun s hs => strFieldTrimmed_nonempty _ _ _ hs
          · exact fun s hs => strFieldTrimmed_nonempty _ _ _ hs
          · intro s hs
            obtain ⟨c, _, hc⟩ := Option.bind_eq_some.mp hs
            exact strFieldTrimmed_nonempty _ _ _ hc
        have hex : ((strFieldPresent ns "ubiquity:example" <|> examplesHead ns <|>
            (lookupField existing commandName).bind
              (fun c => strFieldPresent c "ubiquity:example")).getD
            ("/" ++ commandName)).data.isEmpty = false := by
          refine orElse3_getD_nonempty _ _ _ _ ?_ ?_ ?_ rfl
          · exact fun s hs => strFieldPresent_nonempty _ _ _ hs
          · exact fun s hs => examplesHead_nonempty _ _ hs
          · intro s hs
            obtain ⟨c, _, hc⟩ := Option.bind_eq_some.mp hs
            exact strFieldPresent_nonempty _ _ _ hc
        cases hp : variantParameters v (lookupField existing commandName) with
        | some p =>
          dsimp only
          exact validate_single_command _ _ _ [("parameters", p)] hdesc hex
        | none =>
          dsimp only
          exact validate_single_command _ _ _ [] hdesc hex

theorem convertVariant_err (existing v : Json)
    (h : (variantNameSchema v).bind literalCommandName = none) :
    ∃ e, convertVariant existing v = .error e := by
  unfold convertVariant
  split
  · exact ⟨_, rfl⟩
  · cases hns : variantNameSchema v with
    | none => exact ⟨_, rfl⟩
    | some ns =>
      rw [hns] at h
      dsimp only
      rw [Option.some_bind] at h
      rw [h]
      exact ⟨_, rfl⟩

theorem convertVariantsAux_err (existing : Json) :
    ∀ (variants : List Json) (acc : List (String × Json)) (v : Json),
    v ∈ variants → (∃ e, convertVariant existing v = .error e) →
    ∃ e2, convertVariantsAux existing variants acc = .error e2 := by
  intro variants
  induction variants with
  | nil => intro acc v hv _; simp at hv
  | cons u rest ih =>
    intro acc v hv herr
    rw [convertVariantsAux]
    cases hcu : convertVariant existing u with
    | error e => exact ⟨e, rfl⟩
    | ok pr =>
      obtain ⟨p1, p2⟩ := pr
      dsimp only
      rcases List.mem_cons.mp hv with hv | hv
      · obtain ⟨e, he⟩ := herr
        rw [hv] at he
        rw [he] at hcu
        exact Except.noConfusion hcu
      · exact ih _ v hv herr

/-- C6: TypeBox union conversion maps each variant with a literal
`properties.name` (`const` or single-value `enum`) to a command whose
description and example follow the claimed precedence chains (name schema,
then variant, then pre-existing command, then the name itself or `/name`),
any variant without a literal name fails the whole conversion with an error,
and the start sample of the claim yields exactly the claimed map. -/
theorem claim_C6 :
    (∀ (existing : Json) (fields : List (String × Json)) (variants : List Json) (v : Json),
      unionVariants fields = some variants → v ∈ variants →
      (variantNameSchema v).bind literalCommandName = none →
      ∃ e, convertTypeBoxCommandSchema (.obj fields) existing = .error e) ∧
    (∀ (existing v : Json) (n : String) (cmd : Json),
      convertVariant existing v = .ok (n, cmd) →
      convertTypeBoxCommandSchema (.obj [("anyOf", .arr [v])]) existing = .ok [(n, cmd)]) ∧
    convertTypeBoxCommandSchema startUnionSchema (.obj []) =
      .ok [("start", .obj [("description", .str "start"),
        ("ubiquity:example", .str "/start")])] ∧
    convertTypeBoxCommandSchema goUnionSchema existingGoCommands =
      .ok [("go", .obj [("description", .str "from name schema"),
        ("ubiquity:example", .str " /go now "),
        ("parameters", .obj [("type", .str "object")])])] ∧
    convertTypeBoxCommandSchema (.obj [("oneOf", .arr [fallbackVariant])])
        existingGoCommands =
      .ok [("go", .obj [("description", .str "old desc"),
        ("ubiquity:example", .str "/old")])] ∧
    convertTypeBoxCommandSchema (.obj [("oneOf", .arr [fallbackVariant])]) (.obj []) =
      .ok [("go", .obj [("description", .str "go"), ("ubiquity:example", .str "/go")])] ∧
    convertTypeBoxCommandSchema (.obj [("anyOf", .arr [variantDescVariant])]) (.obj []) =
      .ok [("v", .obj [("description", .str "vd"), ("ubiquity:example", .str "/v")])] ∧
    (∃ e, convertTypeBoxCommandSchema (.obj [("anyOf", .arr [goVariant, noNameVariant])])
      (.obj []) = .error e) := by
  refine ⟨?_, ?_, rfl, rfl, rfl, rfl, rfl, ⟨_, rfl⟩⟩
  · intro existing fields variants v hu hv hnone
    rw [convertTypeBoxCommandSchema.eq_def]
    dsimp only
    rw [hu]
    cases variants with
    | nil => simp at hv
    | cons v0 rest =>
      dsimp only
      obtain ⟨e2, he2⟩ := convertVariantsAux_err existing (v0 :: rest) [] v hv
        (convertVariant_err existing v hnone)
      rw [he2]
      exact ⟨e2, rfl⟩
  · intro existing v n cmd h
    rw [convertTypeBoxCommandSchema.eq_def]
    dsimp only
    rw [show unionVariants [("anyOf", .arr [v])] = some [v] from rfl]
    dsimp only
    rw [convertVariantsAux, h]
    dsimp only
    rw [convertVariantsAux]
    dsimp only
    rw [show setAssoc ([] : List (String × Json)) n cmd = [(n, cmd)] from rfl]
    rw [convertVariant_ok_valid existing v n cmd h]

theorem claim_C6_witness :
    convertTypeBoxCommandSchema (.obj [("anyOf", .arr [startVariant])]) (.obj []) =
      .ok [("start", .obj [("description", .str "start"),
        ("ubiquity:example", .str "/start")])] :=
  claim_C6.2.1 (.obj []) startVariant "start"
    (.obj [("description", .str "start"), ("ubiquity:example", .str "/start")]) rfl

/-- C8 counterexample: `validateListeners` accepts the empty array, and
`buildManifest` then sets `ubiquity:listeners` to `[]` without any listener
warning — refuting the claimed non-empty-array validation and the claimed
warn-and-omit behaviour for `[]`. -/
theorem claim_C8_counterexample :
    validateListeners (.arr []) = none ∧
    lookupStr (buildManifest [] ⟨none, none⟩ none sampleRepo
      (sampleOptionsWith (some (.arr [])))).1 "ubiquity:listeners" = some (.arr []) ∧
    (buildManifest [] ⟨none, none⟩ none sampleRepo
      (sampleOptionsWith (some (.arr [])))).2 =
      ["manifest.name: no \"name\" found in package.json and no existing value in manifest.json. Field will be absent.",
        "manifest.description: no \"description\" found in package.json and no existing value in manifest.json. Field will be absent.",
        "manifest.commands: no command schema found from entrypoint metadata. Field will not be auto-generated.",
        "manifest.configuration: no settings schema found from entrypoint metadata. Configuration will not be auto-generated."] :=
  ⟨rfl, rfl, rfl⟩

theorem firstBadListener_none_iff : ∀ (listeners : List Json),
    firstBadListener listeners = none ↔
      ∀ l ∈ listeners, ∃ s, l = Json.str s ∧ s.data.contains '.' := by
  intro listeners
  induction listeners with
  | nil => simp [firstBadListener]
  | cons l rest ih =>
    cases l with
    | str s =>
      show (if s.data.contains '.' then firstBadListener rest
        else some (badListenerMessage (.str s))) = none ↔ _
      by_cases hdot : s.data.contains '.'
      · rw [if_pos hdot]
        rw [ih]
        constructor
        · intro hall x hx
          rcases List.mem_cons.mp hx with hx | hx
          · exact ⟨s, hx, hdot⟩
          · exact hall x hx
        · intro hall x hx
          exact hall x (List.mem_cons_of_mem _ hx)
      · rw [if_neg hdot]
        constructor
        · intro hc; exact Option.noConfusion hc
        · intro hall
          obtain ⟨s2, hs2, hdot2⟩ := hall (Json.str s) (List.mem_cons_self _ _)
          rw [Json.str.injEq] at hs2
          exact absurd (hs2 ▸ hdot2) hdot
    | null =>
      constructor
      · intro hc; exact Option.noConfusion hc
      · intro hall
        obtain ⟨s2, hs2, _⟩ := hall Json.null (List.mem_cons_self _ _)
        exact Json.noConfusion hs2
    | bool b =>
      constructor
      · intro hc; exact Option.noConfusion hc
      · intro hall
        obtain ⟨s2, hs2, _⟩ := hall (Json.bool b) (List.mem_cons_self _ _)
        exact Json.noConfusion hs2
    | num nn =>
      constructor
      · intro hc; exact Option.noConfusion hc
      · intro hall
        obtain ⟨s2, hs2, _⟩ := hall (Json.num nn) (List.mem_cons_self _ _)
        exact Json.noConfusion hs2
    | arr a =>
      constructor
      · intro hc; exact Option.noConfusion hc
      · intro hall
        obtain ⟨s2, hs2, _⟩ := hall (Json.arr a) (List.mem_cons_self _ _)
        exact Json.noConfusion hs2
    | obj o =>
      constructor
      · intro hc; exact Option.noConfusion hc
      · intro hall
        obtain ⟨s2, hs2, _⟩ := hall (Json.obj o) (List.mem_cons_self _ _)
        exact Json.noConfusion hs2

/-- C8 (amended): the supported-events value is validated to be an array of
strings each containing a dot; a value failing this validation leaves the
field at its prior value and pushes a warning, while a passing value —
including the empty array — is stored in the field. -/
theorem claim_C8_amended :
    (∀ (listeners : List Json),
      validateListeners (.arr listeners) = none ↔
        ∀ l ∈ listeners, ∃ s, l = Json.str s ∧ s.data.contains '.') ∧
    (∀ (m : List (String × Json)) (ev : Json) (e : String),
      validateListeners ev = some e →
      applyListenersField m (some ev) =
        (m, ["manifest[\"ubiquity:listeners\"]: supported events found but invalid: " ++
          e ++ ". Skipping."])) ∧
    (∀ (m : List (String × Json)) (ev : Json),
      validateListeners ev = none →
      applyListenersField m (some ev) = (setAssoc m "ubiquity:listeners" ev, [])) ∧
    validateListeners (.arr []) = none ∧
    validateListeners (.arr [.str "issues.opened", .str "push.x"]) = none ∧
    (∃ e, validateListeners (.arr [.str "nodot"]) = some e) ∧
    (∃ e, validateListeners (.arr [.num 3]) = some e) ∧
    (∃ e, validateListeners (.str "issues.opened") = some e) := by
  refine ⟨firstBadListener_none_iff, ?_, ?_, rfl, rfl, ⟨_, rfl⟩, ⟨_, rfl⟩, ⟨_, rfl⟩⟩
  · intro m ev e hv
    rw [applyListenersField.eq_def]
    dsimp only
    rw [hv]
  · intro m ev hv
    rw [applyListenersField.eq_def]
    dsimp only
    rw [hv]

theorem claim_C8_amended_witness :
    applyListenersField [] (some (.arr [])) =
      (setAssoc [] "ubiquity:listeners" (.arr []), []) ∧
    applyListenersField [("x", Json.null)] (some (.str "nope")) =
      ([("x", Json.null)],
        ["manifest[\"ubiquity:listeners\"]: supported events found but invalid: listeners must be an array of webhook event strings. Skipping."]) :=
  ⟨claim_C8_amended.2.2.1 [] (.arr []) rfl,
    claim_C8_amended.2.1 [("x", Json.null)] (.str "nope")
      "listeners must be an array of webhook event strings" rfl⟩

/-- Witness: the split-and-rejoin equation of C10 at a concrete input. -/
theorem claim_C10_witness : joinWith ',' (splitTopLevel "a,(b,c)" ',' false) = "a,(b,c)" :=
  claim_C10.2.1 "a,(b,c)" ',' false

/-- Helper: an if-then-else returning `some` in the then branch never yields
`none` when its else branch does not. -/
theorem ifSomeNe (b : Prop) [inst : Decidable b] (x : Int) (y : Option Int)
    (hy : y ≠ none) : (if b then some x else y) ≠ none := by
  split
  · simp
  · exact hy

/-- The `findTopLevelChar` loop never exhausts fuel at the same budget as
the delimiter scans, so the wrapper never takes its fallback branch. -/
theorem ftcSuff : ∀ fuel : Nat, ∀ (cs : List Char) (target : Char) (i : Nat)
    (pd bd kd : Int), 2 * (cs.length - i) + 1 ≤ fuel →
    ftcLoop cs target fuel i pd bd kd ≠ none := by
  intro fuel
  induction fuel with
  | zero => intro cs target i pd bd kd hb; omega
  | succ fuel ih =>
    intro cs target i pd bd kd hb
    rw [ftcLoop]
    split
    · simp
    · rename_i c heq
      have hilen : i < cs.length := by
        by_contra hge
        rw [List.get?_eq_none.mpr (by omega)] at heq
        exact Option.noConfusion heq
      split
      · cases hsk : skipStrLoop cs fuel (cs.get? i) (i + 1) with
        | none => exact absurd hsk ((scanSuff fuel).1 _ _ _ (by omega))
        | some r =>
          dsimp only
          have hbd := (scanBounds fuel).1 _ _ _ _ hsk
          have hr : (i : Int) ≤ r := by rcases hbd with ⟨h1, _⟩ | h1 <;> omega
          exact ih _ _ _ _ _ _ (by omega)
      · split
        · have hge := lineCommentEnd_ge cs i hilen
          exact ih _ _ _ _ _ _ (by omega)
        · split
          · have hge := blockCommentResume_ge cs i
            exact ih _ _ _ _ _ _ (by omega)
          · exact ifSomeNe _ _ _ (ih _ _ _ _ _ _ (by omega))

/-- Totality of the `findTopLevelChar` scan at the wrapper fuel. -/
theorem findTopLevelChar_total (input : String) (target : Char) :
    ftcLoop input.data target (scanFuel input.data) 0 0 0 0 ≠ none := by
  unfold scanFuel
  exact ftcSuff _ _ _ _ _ _ _ (by omega)

end UpdateManifest
